import Mathlib

/-!
CORDIC sine/cosine (`coordinate_rotation.cpp`)

A shallow embedding of the program in exact arithmetic: a `double` is read as an
element of an ordered field `K` (the rationals for evaluation, the reals for the
statements about `cos`/`sin`), and every table literal is the decimal rational it
denotes.  The `operations` array is a map from cell index to `Option Nat`, where
`none` is a cell that has not been written; the locals `x_out`/`y_out` of `c_sin`
are `Option K` for the same reason, so reading an unassigned variable makes the
model of `c_sin` return `none`.
-/

namespace Cordic

/-! ## Constants and tables -/

/-- The macro `ADD_OP`, defined as 1. -/
def ADD_OP : Nat := 1
/-- The macro `SUB_OP`, defined as 2. -/
def SUB_OP : Nat := 2
/-- The macro `NUL_OP`, defined as 0. -/
def NUL_OP : Nat := 0

/-- The macro `ERR`, defined as `1e-06`. -/
def ERR {K : Type} [LinearOrderedField K] : K := 1e-06

/-- The struct `TrigonometricValue`. -/
structure TrigonometricValue (K : Type) where
  cosine : K
  sine : K
deriving DecidableEq

/-- The literals of `const double thetas[20]`, in source order. -/
def thetasTable {K : Type} [LinearOrderedField K] : List K :=
  [ 0.7853981633974483,
    0.4636476090008061,
    0.24497866312686414,
    0.12435499454676144,
    0.06241880999595735,
    0.031239833430268277,
    0.015623728620476831,
    0.007812341060101111,
    0.0039062301319669718,
    0.0019531225164788188,
    0.0009765621895593195,
    0.0004882812111948983,
    0.00024414062014936177,
    0.00012207031189367021,
    6.103515617420877e-05,
    3.0517578115526096e-05,
    1.5258789061315762e-05,
    7.62939453110197e-06,
    3.814697265606496e-06,
    1.907348632810187e-06 ]

/-- The literals of `const double cosine[20]`, in source order. -/
def cosineTable {K : Type} [LinearOrderedField K] : List K :=
  [ 0.7071067811865476,
    0.8944271909999159,
    0.9701425001453319,
    0.9922778767136676,
    0.9980525784828885,
    0.9995120760870788,
    0.9998779520346953,
    0.9999694838187878,
    0.9999923706927791,
    0.9999980926568242,
    0.9999995231631829,
    0.9999998807907318,
    0.999999970197679,
    0.9999999925494195,
    0.9999999981373549,
    0.9999999995343387,
    0.9999999998835847,
    0.9999999999708962,
    0.999999999992724,
    0.999999999998181 ]

/-- The array read `thetas[i]` (every read in the program has `i < 20`). -/
def thetas {K : Type} [LinearOrderedField K] (i : Nat) : K := thetasTable.getD i 0

/-- The array read `cosine[i]` (every read in the program has `i < 20`). -/
def cosine {K : Type} [LinearOrderedField K] (i : Nat) : K := cosineTable.getD i 0

/-! ## `approximate` -/

/-- What `approximate` leaves behind: the returned length, the local `sum` at the
`return`, and the caller's `operations` array. -/
structure ApproxResult (K : Type) where
  len : Nat
  sum : K
  operations : Nat → Option Nat

/-- Lines 78-98: the body of the loop of `approximate` before the convergence
test, at index `i` with partial sum `sum`.  Returns the operation written to
`operations[i]` and the updated `sum`. -/
def approxStep {K : Type} [LinearOrderedField K] (alpha : K) (i : Nat) (sum : K) : Nat × K :=
  let sum_add := sum + thetas i
  let sum_sub := sum - thetas i
  let distance_add := |alpha - sum_add|
  let distance_sub := |alpha - sum_sub|
  let distance_nul := |alpha - sum|
  if distance_add < distance_sub then
    if distance_add < distance_nul then (ADD_OP, sum_add) else (NUL_OP, sum)
  else
    if distance_sub < distance_nul then (SUB_OP, sum_sub) else (NUL_OP, sum)

/-- The `for` loop of `approximate` from index `i` on, with `fuel = 20 - i`
iterations left; running out of iterations is the `return 20` after the loop. -/
def approxLoop {K : Type} [LinearOrderedField K] (alpha : K) :
    Nat → Nat → K → (Nat → Option Nat) → ApproxResult K
  | 0, _, sum, operations => ⟨20, sum, operations⟩
  | fuel + 1, i, sum, operations =>
    let r := approxStep alpha i sum
    let operations1 := Function.update operations i (some r.1)
    if |alpha - r.2| < ERR then ⟨i + 1, r.2, operations1⟩
    else approxLoop alpha fuel (i + 1) r.2 operations1

/-- The function `int approximate(double alpha, uint8_t operations[20])`. -/
def approximate {K : Type} [LinearOrderedField K] (alpha : K)
    (operations : Nat → Option Nat) : ApproxResult K :=
  approxLoop alpha 20 0 0 operations

/-! ## `right_shift` -/

/-- The library function `std::frexp` in exact arithmetic: `value = significand * 2 ^ exponent` with
`1/2 ≤ |significand| < 1`, and `(0, 0)` for `value = 0`. -/
def frexp {K : Type} [LinearOrderedField K] [FloorRing K] (value : K) : K × Int :=
  if value = 0 then (0, 0)
  else
    let exponent := Int.log 2 |value| + 1
    (value / (2 : K) ^ exponent, exponent)

/-- The library function `std::ldexp` in exact arithmetic. -/
def ldexp {K : Type} [LinearOrderedField K] (significand : K) (exponent : Int) : K :=
  significand * (2 : K) ^ exponent

/-- The function `double right_shift(double value, int shift)`. -/
def right_shift {K : Type} [LinearOrderedField K] [FloorRing K] (value : K) (shift : Int) : K :=
  let fr := frexp value
  let significand := fr.1
  let exponent := fr.2 - shift
  ldexp significand exponent

/-! ## `c_sin` -/

/-- The locals of `c_sin` that the rotation loop updates. -/
structure RotState (K : Type) where
  x_in : K
  x_out : Option K
  y_in : K
  y_out : Option K
  mul : K

/-- Lines 124-148: one iteration of the loop of `c_sin` at index `i`.  `none` when
the iteration reads an unwritten cell of `operations` or an unassigned
`x_out`/`y_out`. -/
def rotStep {K : Type} [LinearOrderedField K] [FloorRing K] (operations : Nat → Option Nat)
    (i : Nat) (s : RotState K) : Option (RotState K) :=
  match operations i with
  | none => none
  | some op =>
    let s1 : RotState K :=
      if op = ADD_OP then
        { s with x_out := some (s.x_in - right_shift s.y_in i),
                 y_out := some (right_shift s.x_in i + s.y_in) }
      else if op = SUB_OP then
        { s with x_out := some (s.x_in + right_shift s.y_in i),
                 y_out := some (s.y_in - right_shift s.x_in i) }
      else s
    if op ≠ NUL_OP then
      match s1.x_out, s1.y_out with
      | some xo, some yo => some { s1 with x_in := xo, y_in := yo, mul := s1.mul * cosine i }
      | _, _ => none
    else some s1

/-- The loop `for (int i = 0; i < len; i++)` of `c_sin`, from index `i` on with
`fuel = len - i` iterations left. -/
def rotLoop {K : Type} [LinearOrderedField K] [FloorRing K] (operations : Nat → Option Nat) :
    Nat → Nat → RotState K → Option (RotState K)
  | 0, _, s => some s
  | fuel + 1, i, s =>
    match rotStep operations i s with
    | none => none
    | some s1 => rotLoop operations fuel (i + 1) s1

/-- The function `TrigonometricValue c_sin(double x)`; `#define X 1`, `#define Y 0`, and the
local `operations` array starts with every cell unwritten. -/
def c_sin {K : Type} [LinearOrderedField K] [FloorRing K] (x : K) :
    Option (TrigonometricValue K) :=
  let r := approximate x (fun _ => none)
  match rotLoop r.operations r.len 0 ⟨1, none, 0, none, 1⟩ with
  | none => none
  | some s => some ⟨s.x_in * s.mul, s.y_in * s.mul⟩

/-! ## Auxiliary definitions used by the statements -/

/-- The partial sum of `approximate` after `k` iterations of the loop body
(lines 78-98), ignoring the early `return`. -/
def sumAfter {K : Type} [LinearOrderedField K] (alpha : K) : Nat → K
  | 0 => 0
  | k + 1 => (approxStep alpha k (sumAfter alpha k)).2

/-- The operation the loop body records at index `k`. -/
def opAt {K : Type} [LinearOrderedField K] (alpha : K) (k : Nat) : Nat :=
  (approxStep alpha k (sumAfter alpha k)).1

/-- The signed table angle an operation cell stands for: `+thetas[i]` for `ADD_OP`,
`-thetas[i]` for `SUB_OP`, `0` otherwise. -/
def signedTheta {K : Type} [LinearOrderedField K] (op : Option Nat) (i : Nat) : K :=
  if op = some ADD_OP then thetas i else if op = some SUB_OP then -thetas i else 0

/-- The signed sum of `thetas[i]` over the first `n` cells of `operations`. -/
def signedSum {K : Type} [LinearOrderedField K] (operations : Nat → Option Nat) : Nat → K
  | 0 => 0
  | n + 1 => signedSum operations n + signedTheta (operations n) n

/-- The effect of one iteration of the loop of `c_sin` (lines 130-148) on
`(x_in, y_in, mul)` when the cell holds `op`, one of the three operation codes. -/
def rotPure {K : Type} [LinearOrderedField K] [FloorRing K] (op i : Nat) (v : K × K × K) :
    K × K × K :=
  if op = ADD_OP then
    (v.1 - right_shift v.2.1 i, right_shift v.1 i + v.2.1, v.2.2 * cosine i)
  else if op = SUB_OP then
    (v.1 + right_shift v.2.1 i, v.2.1 - right_shift v.1 i, v.2.2 * cosine i)
  else v

/-- The triple `(x_in, y_in, mul)` of `c_sin` after `k` iterations over the operation
sequence `op`, from the initial `(X, Y, 1) = (1, 0, 1)`. -/
def rotAfter {K : Type} [LinearOrderedField K] [FloorRing K] (op : Nat → Nat) :
    Nat → K × K × K
  | 0 => (1, 0, 1)
  | k + 1 => rotPure (op k) k (rotAfter op k)

/-- A bound on the error `|alpha - sum|` after `k` iterations of the loop body of
`approximate` for `0 ≤ alpha ≤ 1.575`: each iteration either takes the table angle
off the error or leaves at most half of it. -/
def errBound {K : Type} [LinearOrderedField K] : Nat → K
  | 0 => 1.575
  | k + 1 => max (errBound k - thetas k) (thetas k / 2)

/-- The squared length of the scaled vector `(x_in * mul, y_in * mul)`. -/
def normSq {K : Type} [LinearOrderedField K] (v : K × K × K) : K :=
  (v.1 ^ 2 + v.2.1 ^ 2) * v.2.2 ^ 2

/-- The signed sum over the first `k` entries of an operation sequence `op` of the
angles `arc i`: `+arc i` for `ADD_OP`, `-arc i` for `SUB_OP`, nothing otherwise. -/
def angleSum {K : Type} [LinearOrderedField K] (arc : Nat → K) (op : Nat → Nat) : Nat → K
  | 0 => 0
  | k + 1 => angleSum arc op k +
      (if op k = ADD_OP then arc k else if op k = SUB_OP then -arc k else 0)

/-- The product over the first `k` entries of an operation sequence `op` of the
factors `f i` at the indices holding `ADD_OP` or `SUB_OP`. -/
def stretch {K : Type} [LinearOrderedField K] (f : Nat → K) (op : Nat → Nat) : Nat → K
  | 0 => 1
  | k + 1 => stretch f op k * (if op k = ADD_OP ∨ op k = SUB_OP then f k else 1)

/-- An `operations` array whose cells have all been written, cell `j` holding the code
of the `j`-th entry of the operation sequence `op` (`0 = NUL_OP`, `1 = ADD_OP`,
`2 = SUB_OP`). -/
def cellsOf (op : Nat → Fin 3) : Nat → Option Nat := fun j => some (op j).val

/-! ## Basic facts about the tables -/

theorem thetas_pos {K : Type} [LinearOrderedField K] (i : Nat) (hi : i < 20) :
    (0 : K) < thetas i := by
  interval_cases i <;>
    simp only [thetas, thetasTable, List.getD_cons_zero, List.getD_cons_succ] <;> norm_num

/-! ## The loop body of `approximate` -/

theorem abs_sub_lt_abs_add_iff {K : Type} [LinearOrderedField K] (e t : K) (ht : 0 < t) :
    |e - t| < |e + t| ↔ 0 < e := by
  constructor
  · intro h
    by_contra hc
    rcases abs_cases (e - t) with ⟨h1, _⟩ | ⟨h1, _⟩ <;>
      rcases abs_cases (e + t) with ⟨h2, _⟩ | ⟨h2, _⟩ <;> linarith
  · intro h
    rcases abs_cases (e - t) with ⟨h1, _⟩ | ⟨h1, _⟩ <;>
      rcases abs_cases (e + t) with ⟨h2, _⟩ | ⟨h2, _⟩ <;> linarith

theorem abs_sub_lt_abs_iff {K : Type} [LinearOrderedField K] (e t : K) (ht : 0 < t) :
    |e - t| < |e| ↔ t / 2 < e := by
  constructor
  · intro h
    by_contra hc
    rcases abs_cases (e - t) with ⟨h1, _⟩ | ⟨h1, _⟩ <;>
      rcases abs_cases e with ⟨h2, _⟩ | ⟨h2, _⟩ <;> linarith
  · intro h
    rcases abs_cases (e - t) with ⟨h1, _⟩ | ⟨h1, _⟩ <;>
      rcases abs_cases e with ⟨h2, _⟩ | ⟨h2, _⟩ <;> linarith

theorem abs_add_lt_abs_iff {K : Type} [LinearOrderedField K] (e t : K) (ht : 0 < t) :
    |e + t| < |e| ↔ e < -(t / 2) := by
  constructor
  · intro h
    by_contra hc
    rcases abs_cases (e + t) with ⟨h1, _⟩ | ⟨h1, _⟩ <;>
      rcases abs_cases e with ⟨h2, _⟩ | ⟨h2, _⟩ <;> linarith
  · intro h
    rcases abs_cases (e + t) with ⟨h1, _⟩ | ⟨h1, _⟩ <;>
      rcases abs_cases e with ⟨h2, _⟩ | ⟨h2, _⟩ <;> linarith

/-- The three-way comparison of the loop body, read on the signed error
`alpha - sum`: add when it exceeds half the table angle, subtract when it is below
minus half the table angle, skip otherwise. -/
theorem approxStep_eq {K : Type} [LinearOrderedField K] (alpha sum : K) (i : Nat)
    (hi : i < 20) :
    approxStep alpha i sum =
      if thetas i / 2 < alpha - sum then (ADD_OP, sum + thetas i)
      else if alpha - sum < -(thetas i / 2) then (SUB_OP, sum - thetas i)
      else (NUL_OP, sum) := by
  have ht : (0 : K) < thetas i := thetas_pos i hi
  have e1 : alpha - (sum + thetas i) = (alpha - sum) - thetas i := by ring
  have e2 : alpha - (sum - thetas i) = (alpha - sum) + thetas i := by ring
  simp only [approxStep, e1, e2, abs_sub_lt_abs_add_iff _ _ ht, abs_sub_lt_abs_iff _ _ ht,
    abs_add_lt_abs_iff _ _ ht]
  by_cases h0 : 0 < alpha - sum
  · have h3 : ¬ alpha - sum < -(thetas i / 2) := by
      intro h; linarith
    simp [h0, h3]
  · have h3 : ¬ thetas i / 2 < alpha - sum := by
      intro h; linarith
    simp [h0, h3]

/-! ## The loop of `approximate` -/

theorem approxLoop_succ {K : Type} [LinearOrderedField K] (alpha : K) (fuel i : Nat)
    (operations : Nat → Option Nat) :
    approxLoop alpha (fuel + 1) i (sumAfter alpha i) operations =
      if |alpha - sumAfter alpha (i + 1)| < ERR then
        ⟨i + 1, sumAfter alpha (i + 1), Function.update operations i (some (opAt alpha i))⟩
      else approxLoop alpha fuel (i + 1) (sumAfter alpha (i + 1))
        (Function.update operations i (some (opAt alpha i))) := by
  simp only [approxLoop, sumAfter, opAt]

/-- The loop invariant of `approximate`, stated on the result of the loop started
at index `i` with the partial sum the first `i` iterations produce. -/
theorem approxLoop_spec {K : Type} [LinearOrderedField K] (alpha : K) (fuel : Nat) :
    ∀ (i : Nat) (operations : Nat → Option Nat), i + fuel = 20 →
      i ≤ (approxLoop alpha fuel i (sumAfter alpha i) operations).len ∧
      (approxLoop alpha fuel i (sumAfter alpha i) operations).len ≤ 20 ∧
      (0 < fuel → i < (approxLoop alpha fuel i (sumAfter alpha i) operations).len) ∧
      (approxLoop alpha fuel i (sumAfter alpha i) operations).sum =
        sumAfter alpha (approxLoop alpha fuel i (sumAfter alpha i) operations).len ∧
      (∀ k, i < k → k < (approxLoop alpha fuel i (sumAfter alpha i) operations).len →
        ¬ |alpha - sumAfter alpha k| < ERR) ∧
      ((approxLoop alpha fuel i (sumAfter alpha i) operations).len < 20 →
        |alpha - sumAfter alpha (approxLoop alpha fuel i (sumAfter alpha i) operations).len|
          < ERR) ∧
      (∀ j, (approxLoop alpha fuel i (sumAfter alpha i) operations).operations j =
        if i ≤ j ∧ j < (approxLoop alpha fuel i (sumAfter alpha i) operations).len then
          some (opAt alpha j) else operations j) := by
  induction fuel with
  | zero =>
    intro i operations h
    have hi : i = 20 := by omega
    subst hi
    simp only [approxLoop]
    refine ⟨le_refl _, le_refl _, fun h0 => absurd h0 (lt_irrefl _), trivial, ?_, ?_, ?_⟩
    · intro k h1 h2; omega
    · intro h0; omega
    · intro j
      have : ¬ (20 ≤ j ∧ j < 20) := by omega
      simp [this]
  | succ fuel ih =>
    intro i operations h
    rw [approxLoop_succ]
    by_cases hc : |alpha - sumAfter alpha (i + 1)| < ERR
    · simp only [hc, if_true]
      refine ⟨by omega, by omega, fun _ => by omega, trivial, ?_, fun _ => trivial, ?_⟩
      · intro k h1 h2; omega
      · intro j
        by_cases hj : j = i
        · subst hj; simp
        · have : ¬ (i ≤ j ∧ j < i + 1) := by omega
          simp [Function.update_noteq hj, this]
    · simp only [hc, if_false]
      obtain ⟨h1, h2, h3, h4, h5, h6, h7⟩ :=
        ih (i + 1) (Function.update operations i (some (opAt alpha i))) (by omega)
      refine ⟨by omega, h2, fun _ => by omega, h4, ?_, h6, ?_⟩
      · intro k hk1 hk2
        by_cases hk : k = i + 1
        · subst hk; exact hc
        · exact h5 k (by omega) hk2
      · intro j
        rw [h7 j]
        by_cases hj : j = i
        · subst hj
          have hA : ¬ (j + 1 ≤ j ∧
              j < (approxLoop alpha fuel (j + 1) (sumAfter alpha (j + 1))
                (Function.update operations j (some (opAt alpha j)))).len) := by omega
          have hB : (j ≤ j ∧
              j < (approxLoop alpha fuel (j + 1) (sumAfter alpha (j + 1))
                (Function.update operations j (some (opAt alpha j)))).len) := by omega
          simp [hA, hB]
        · by_cases hlt : i + 1 ≤ j ∧
              j < (approxLoop alpha fuel (i + 1) (sumAfter alpha (i + 1))
                (Function.update operations i (some (opAt alpha i)))).len
          · have hB : (i ≤ j ∧
              j < (approxLoop alpha fuel (i + 1) (sumAfter alpha (i + 1))
                (Function.update operations i (some (opAt alpha i)))).len) := by omega
            simp [hlt, hB]
          · have hB : ¬ (i ≤ j ∧
              j < (approxLoop alpha fuel (i + 1) (sumAfter alpha (i + 1))
                (Function.update operations i (some (opAt alpha i)))).len) := by omega
            simp [hlt, hB, Function.update_noteq hj]

/-- The result of `approximate`, in terms of the partial sums of the loop body. -/
theorem approximate_spec {K : Type} [LinearOrderedField K] (alpha : K)
    (operations : Nat → Option Nat) :
    1 ≤ (approximate alpha operations).len ∧
    (approximate alpha operations).len ≤ 20 ∧
    (approximate alpha operations).sum = sumAfter alpha (approximate alpha operations).len ∧
    (∀ k, 0 < k → k < (approximate alpha operations).len →
      ¬ |alpha - sumAfter alpha k| < ERR) ∧
    ((approximate alpha operations).len < 20 →
      |alpha - sumAfter alpha (approximate alpha operations).len| < ERR) ∧
    (∀ j, (approximate alpha operations).operations j =
      if j < (approximate alpha operations).len then some (opAt alpha j) else operations j) := by
  obtain ⟨_, h2, h3, h4, h5, h6, h7⟩ := approxLoop_spec alpha 20 0 operations (by omega)
  have h3 := h3 (by omega)
  refine ⟨h3, h2, h4, h5, h6, ?_⟩
  intro j
  have := h7 j
  simpa using this

/-! ## `right_shift` divides by a power of two -/

theorem right_shift_eq {K : Type} [LinearOrderedField K] [FloorRing K] (value : K)
    (shift : Int) : right_shift value shift = value * (2 : K) ^ (-shift) := by
  have h2 : (2 : K) ≠ 0 := two_ne_zero
  unfold right_shift frexp ldexp
  by_cases hv : value = 0
  · simp [hv]
  · simp only [hv, if_false]
    rw [div_mul_eq_mul_div, mul_div_assoc, ← zpow_sub₀ h2]
    congr 2
    ring

theorem right_shift_nat {K : Type} [LinearOrderedField K] [FloorRing K] (value : K)
    (i : Nat) : right_shift value (i : Int) = value / (2 : K) ^ i := by
  rw [right_shift_eq, zpow_neg, zpow_natCast, div_eq_mul_inv]

/-! ## The loop body never moves away from the target -/

theorem approxStep_dist_le {K : Type} [LinearOrderedField K] (alpha sum : K) (i : Nat) :
    |alpha - (approxStep alpha i sum).2| ≤ |alpha - sum| := by
  unfold approxStep
  dsimp only
  split_ifs with h1 h2 h3
  · exact le_of_lt h2
  · exact le_refl _
  · exact le_of_lt h3
  · exact le_refl _

theorem sumAfter_dist_antitone {K : Type} [LinearOrderedField K] (alpha : K) :
    Antitone (fun k => |alpha - sumAfter alpha k|) := by
  apply antitone_nat_of_succ_le
  intro k
  exact approxStep_dist_le alpha (sumAfter alpha k) k

/-! ## The loop of `c_sin` -/

theorem opAt_mem {K : Type} [LinearOrderedField K] (alpha : K) (k : Nat) :
    opAt alpha k = ADD_OP ∨ opAt alpha k = SUB_OP ∨ opAt alpha k = NUL_OP := by
  unfold opAt approxStep
  dsimp only
  split_ifs <;> simp

theorem rotStep_of_code {K : Type} [LinearOrderedField K] [FloorRing K]
    (operations : Nat → Option Nat) (i op : Nat) (s : RotState K)
    (hop : operations i = some op) (hcode : op = ADD_OP ∨ op = SUB_OP ∨ op = NUL_OP) :
    ∃ s1, rotStep operations i s = some s1 ∧
      (s1.x_in, s1.y_in, s1.mul) = rotPure op i (s.x_in, s.y_in, s.mul) := by
  unfold rotStep rotPure
  rw [hop]
  rcases hcode with h | h | h <;> subst h <;> simp [ADD_OP, SUB_OP, NUL_OP]

theorem rotLoop_spec {K : Type} [LinearOrderedField K] [FloorRing K]
    (operations : Nat → Option Nat) (op : Nat → Nat) (fuel : Nat) :
    ∀ (i : Nat) (s : RotState K),
      (∀ j, i ≤ j → j < i + fuel →
        operations j = some (op j) ∧ (op j = ADD_OP ∨ op j = SUB_OP ∨ op j = NUL_OP)) →
      (s.x_in, s.y_in, s.mul) = rotAfter op i →
      ∃ s1, rotLoop operations fuel i s = some s1 ∧
        (s1.x_in, s1.y_in, s1.mul) = rotAfter op (i + fuel) := by
  induction fuel with
  | zero =>
    intro i s _ hs
    exact ⟨s, rfl, hs⟩
  | succ fuel ih =>
    intro i s hops hs
    obtain ⟨h1, h2⟩ := hops i (le_refl _) (by omega)
    obtain ⟨s1, hs1, hv⟩ := rotStep_of_code operations i (op i) s h1 h2
    have hs1v : (s1.x_in, s1.y_in, s1.mul) = rotAfter op (i + 1) := by
      rw [hv, hs]; rfl
    obtain ⟨s2, hs2, hv2⟩ := ih (i + 1) s1 (fun j hj1 hj2 => hops j (by omega) (by omega)) hs1v
    refine ⟨s2, ?_, ?_⟩
    · simp only [rotLoop, hs1]
      exact hs2
    · rw [hv2]
      congr 1
      omega

/-- The function `c_sin` always returns, and its result is the rotated vector times the scale
product, both taken over the operations `approximate` recorded. -/
theorem c_sin_eq {K : Type} [LinearOrderedField K] [FloorRing K] (alpha : K) :
    c_sin alpha = some
      ⟨(rotAfter (opAt alpha) (approximate alpha (fun _ => none)).len).1 *
          (rotAfter (opAt alpha) (approximate alpha (fun _ => none)).len).2.2,
       (rotAfter (opAt alpha) (approximate alpha (fun _ => none)).len).2.1 *
          (rotAfter (opAt alpha) (approximate alpha (fun _ => none)).len).2.2⟩ := by
  obtain ⟨_, _, _, _, _, hops⟩ := approximate_spec alpha (fun _ => none)
  obtain ⟨s1, hs1, hv⟩ := rotLoop_spec (approximate alpha (fun _ => none)).operations
    (opAt alpha) (approximate alpha (fun _ => none)).len 0 (⟨1, none, 0, none, 1⟩ : RotState K)
    (fun j _ hj => ⟨by rw [hops j]; simp at hj; simp [hj], opAt_mem alpha j⟩) rfl
  simp only [zero_add] at hv
  unfold c_sin
  simp only [hs1]
  rw [← hv]

/-- The length `approximate` returns, from the errors of the partial sums. -/
theorem approximate_len_eq {K : Type} [LinearOrderedField K] (alpha : K)
    (operations : Nat → Option Nat) (n : Nat) (h1 : 1 ≤ n) (h20 : n ≤ 20)
    (hconv : n < 20 → |alpha - sumAfter alpha n| < ERR)
    (hnot : ∀ k, 0 < k → k < n → ¬ |alpha - sumAfter alpha k| < ERR) :
    (approximate alpha operations).len = n := by
  obtain ⟨g1, g2, _, g4, g5, _⟩ := approximate_spec alpha operations
  rcases lt_trichotomy (approximate alpha operations).len n with h | h | h
  · exact absurd (g5 (by omega)) (hnot _ (by omega) h)
  · exact h
  · exact absurd (hconv (by omega)) (g4 n (by omega) h)

/-! ## The policy of the loop body -/

theorem tie_error_zero {K : Type} [LinearOrderedField K] (e t : K) (ht : 0 < t)
    (h : |e - t| = |e + t|) : e = 0 := by
  rcases abs_eq_abs.mp h with h1 | h1
  · linarith
  · linarith

/-- The operation of the loop body at an index of the table, in terms of the three
candidate distances. -/
theorem approxStep_policy {K : Type} [LinearOrderedField K] (alpha sum : K) (i : Nat)
    (hi : i < 20) :
    ((approxStep alpha i sum).1 = ADD_OP ↔
      |alpha - (sum + thetas i)| ≤ |alpha - (sum - thetas i)| ∧
        |alpha - (sum + thetas i)| < |alpha - sum|) ∧
    ((approxStep alpha i sum).1 = SUB_OP ↔
      |alpha - (sum - thetas i)| < |alpha - (sum + thetas i)| ∧
        |alpha - (sum - thetas i)| < |alpha - sum|) ∧
    ((approxStep alpha i sum).1 = NUL_OP ↔
      ¬ (|alpha - (sum + thetas i)| ≤ |alpha - (sum - thetas i)| ∧
        |alpha - (sum + thetas i)| < |alpha - sum|) ∧
      ¬ (|alpha - (sum - thetas i)| < |alpha - (sum + thetas i)| ∧
        |alpha - (sum - thetas i)| < |alpha - sum|)) := by
  have ht : (0 : K) < thetas i := thetas_pos i hi
  have tie : |alpha - (sum + thetas i)| = |alpha - (sum - thetas i)| →
      ¬ |alpha - (sum - thetas i)| < |alpha - sum| := by
    intro h
    have e1 : alpha - (sum + thetas i) = (alpha - sum) - thetas i := by ring
    have e2 : alpha - (sum - thetas i) = (alpha - sum) + thetas i := by ring
    rw [e1, e2] at h
    have h0 := tie_error_zero _ _ ht h
    rw [h0]
    simp
  unfold approxStep
  dsimp only
  split_ifs with h1 h2 h3
  · refine ⟨⟨fun _ => ⟨le_of_lt h1, h2⟩, fun _ => rfl⟩, ⟨fun h => ?_, fun h => ?_⟩,
      ⟨fun h => ?_, fun h => ?_⟩⟩
    · simp [ADD_OP, SUB_OP] at h
    · exact absurd h.1 (not_lt.mpr (le_of_lt h1))
    · simp [ADD_OP, NUL_OP] at h
    · exact absurd ⟨le_of_lt h1, h2⟩ h.1
  · refine ⟨⟨fun h => ?_, fun h => ?_⟩, ⟨fun h => ?_, fun h => ?_⟩, ⟨fun _ => ⟨?_, ?_⟩, fun _ => rfl⟩⟩
    · simp [ADD_OP, NUL_OP] at h
    · exact absurd h.2 h2
    · simp [SUB_OP, NUL_OP] at h
    · exact absurd h.1 (not_lt.mpr (le_of_lt h1))
    · exact fun h => h2 h.2
    · exact fun h => absurd h.1 (not_lt.mpr (le_of_lt h1))
  · have hlt : |alpha - (sum - thetas i)| < |alpha - (sum + thetas i)| := by
      rcases lt_or_eq_of_le (not_lt.mp h1) with h | h
      · exact h
      · exact absurd h3 (tie h.symm)
    refine ⟨⟨fun h => ?_, fun h => ?_⟩, ⟨fun _ => ⟨hlt, h3⟩, fun _ => rfl⟩,
      ⟨fun h => ?_, fun h => ?_⟩⟩
    · simp [ADD_OP, SUB_OP] at h
    · exact absurd h.1 (not_le.mpr hlt)
    · simp [SUB_OP, NUL_OP] at h
    · exact absurd ⟨hlt, h3⟩ h.2
  · refine ⟨⟨fun h => ?_, fun h => ?_⟩, ⟨fun h => ?_, fun h => ?_⟩, ⟨fun _ => ⟨?_, ?_⟩, fun _ => rfl⟩⟩
    · simp [ADD_OP, NUL_OP] at h
    · have heq : |alpha - (sum + thetas i)| = |alpha - (sum - thetas i)| :=
        le_antisymm h.1 (not_lt.mp h1)
      rw [heq] at h
      exact absurd h.2 h3
    · simp [SUB_OP, NUL_OP] at h
    · exact absurd h.2 h3
    · intro h
      have heq : |alpha - (sum + thetas i)| = |alpha - (sum - thetas i)| :=
        le_antisymm h.1 (not_lt.mp h1)
      rw [heq] at h
      exact h3 h.2
    · exact fun h => h3 h.2

/-! ## Evaluation at the angles `0` and `thetas[0]` -/

theorem step_zero {K : Type} [LinearOrderedField K] :
    sumAfter (0 : K) 1 = 0 ∧ opAt (0 : K) 0 = NUL_OP := by
  simp only [sumAfter, opAt]
  rw [approxStep_eq _ _ _ (by norm_num)]
  norm_num [thetas, thetasTable]

theorem len_zero {K : Type} [LinearOrderedField K] (operations : Nat → Option Nat) :
    (approximate (0 : K) operations).len = 1 := by
  apply approximate_len_eq _ _ 1 (by norm_num) (by norm_num)
  · intro _; rw [step_zero.1]; norm_num [ERR]
  · intro k h1 h2; omega

theorem step_theta0 {K : Type} [LinearOrderedField K] :
    sumAfter (thetas 0 : K) 1 = thetas 0 ∧ opAt (thetas 0 : K) 0 = ADD_OP := by
  simp only [sumAfter, opAt]
  rw [approxStep_eq _ _ _ (by norm_num)]
  norm_num [thetas, thetasTable]

theorem len_theta0 {K : Type} [LinearOrderedField K] (operations : Nat → Option Nat) :
    (approximate (thetas 0 : K) operations).len = 1 := by
  apply approximate_len_eq _ _ 1 (by norm_num) (by norm_num)
  · intro _; rw [step_theta0.1]; norm_num [ERR]
  · intro k h1 h2; omega

/-! ## Convergence of the partial sums -/

theorem approxStep_dist_bound {K : Type} [LinearOrderedField K] (alpha sum : K) (i : Nat)
    (hi : i < 20) :
    |alpha - (approxStep alpha i sum).2| ≤ max (|alpha - sum| - thetas i) (thetas i / 2) := by
  have ht : (0 : K) < thetas i := thetas_pos i hi
  rw [approxStep_eq alpha sum i hi, le_max_iff]
  split_ifs with h1 h2
  · dsimp only
    rcases abs_cases (alpha - (sum + thetas i)) with ⟨h3, h4⟩ | ⟨h3, h4⟩ <;>
      rcases abs_cases (alpha - sum) with ⟨h5, h6⟩ | ⟨h5, h6⟩
    · left; linarith
    · left; linarith
    · right; linarith
    · right; linarith
  · dsimp only
    rcases abs_cases (alpha - (sum - thetas i)) with ⟨h3, h4⟩ | ⟨h3, h4⟩ <;>
      rcases abs_cases (alpha - sum) with ⟨h5, h6⟩ | ⟨h5, h6⟩
    · right; linarith
    · right; linarith
    · left; linarith
    · left; linarith
  · dsimp only
    right
    rw [abs_le]
    constructor <;> linarith

theorem sumAfter_dist_le_errBound {K : Type} [LinearOrderedField K] (alpha : K)
    (h0 : 0 ≤ alpha) (h1 : alpha ≤ 1.575) :
    ∀ k, k ≤ 20 → |alpha - sumAfter alpha k| ≤ errBound k := by
  intro k
  induction k with
  | zero =>
    intro _
    simp only [sumAfter, errBound, sub_zero]
    rw [abs_of_nonneg h0]
    exact h1
  | succ k ih =>
    intro hk
    have h := approxStep_dist_bound alpha (sumAfter alpha k) k (by omega)
    have ih := ih (by omega)
    simp only [sumAfter, errBound]
    refine le_trans h (max_le_max ?_ (le_refl _))
    linarith

theorem errBound_twenty {K : Type} [LinearOrderedField K] : (errBound 20 : K) < ERR := by
  have h : (errBound 20 : K) = 1.907348632810187e-06 / 2 := by
    simp only [errBound, thetas, thetasTable, List.getD_cons_zero, List.getD_cons_succ]
    norm_num
  rw [h]
  norm_num [ERR]

/-- On `0 ≤ alpha ≤ 1.575` the partial sum `approximate` returns with is within `ERR`
of `alpha`. -/
theorem approximate_converges {K : Type} [LinearOrderedField K] (alpha : K)
    (h0 : 0 ≤ alpha) (h1 : alpha ≤ 1.575) (operations : Nat → Option Nat) :
    |alpha - (approximate alpha operations).sum| < ERR := by
  obtain ⟨_, g2, g3, _, g5, _⟩ := approximate_spec alpha operations
  rw [g3]
  rcases lt_or_eq_of_le g2 with h | h
  · exact g5 h
  · rw [h]
    exact lt_of_le_of_lt (sumAfter_dist_le_errBound alpha h0 h1 20 (le_refl _)) errBound_twenty

theorem approxStep_snd {K : Type} [LinearOrderedField K] (alpha sum : K) (i : Nat) :
    (approxStep alpha i sum).2 = sum + signedTheta (some (approxStep alpha i sum).1) i := by
  unfold approxStep signedTheta
  dsimp only
  split_ifs <;> simp_all [ADD_OP, SUB_OP, NUL_OP, sub_eq_add_neg]

theorem signedSum_eq_sumAfter {K : Type} [LinearOrderedField K] (alpha : K)
    (operations : Nat → Option Nat) :
    ∀ n, (∀ j, j < n → operations j = some (opAt alpha j)) →
      signedSum operations n = sumAfter alpha n := by
  intro n
  induction n with
  | zero => intro _; rfl
  | succ n ih =>
    intro h
    simp only [signedSum, sumAfter]
    rw [ih (fun j hj => h j (by omega)), h n (by omega), approxStep_snd]
    rfl

theorem approximate_sum_eq_signedSum {K : Type} [LinearOrderedField K] (alpha : K)
    (operations : Nat → Option Nat) :
    (approximate alpha operations).sum =
      signedSum (approximate alpha operations).operations (approximate alpha operations).len := by
  obtain ⟨_, _, g3, _, _, g6⟩ := approximate_spec alpha operations
  rw [g3, signedSum_eq_sumAfter alpha]
  intro j hj
  rw [g6 j]
  simp [hj]

/-! ## The length of the scaled vector -/

theorem cosine_sq_bound {K : Type} [LinearOrderedField K] (i : Nat) (hi : i < 20) :
    (1 - 1e-15 : K) ≤ (cosine i : K) ^ 2 * (1 + 1 / (2 ^ i) ^ 2) ∧
      (cosine i : K) ^ 2 * (1 + 1 / (2 ^ i) ^ 2) ≤ 1 + 1e-15 := by
  interval_cases i <;>
    simp only [cosine, cosineTable, List.getD_cons_zero, List.getD_cons_succ] <;>
    constructor <;> norm_num

theorem rotPure_normSq {K : Type} [LinearOrderedField K] [FloorRing K] (op i : Nat)
    (v : K × K × K) :
    normSq (rotPure op i v) = normSq v ∨
      normSq (rotPure op i v) = normSq v * ((cosine i : K) ^ 2 * (1 + 1 / (2 ^ i) ^ 2)) := by
  have h2 : ((2 : K) ^ i) ≠ 0 := pow_ne_zero _ two_ne_zero
  unfold rotPure
  split_ifs with h1 h3
  · right
    simp only [normSq, right_shift_nat]
    field_simp
    ring
  · right
    simp only [normSq, right_shift_nat]
    field_simp
    ring
  · left; rfl

theorem normSq_nonneg {K : Type} [LinearOrderedField K] (v : K × K × K) : 0 ≤ normSq v := by
  unfold normSq
  positivity

theorem rotAfter_normSq_bounds {K : Type} [LinearOrderedField K] [FloorRing K]
    (op : Nat → Nat) :
    ∀ k, k ≤ 20 → (1 - 1e-15 : K) ^ k ≤ normSq (rotAfter op k) ∧
      normSq (rotAfter op k) ≤ (1 + 1e-15 : K) ^ k := by
  have hlo0 : (0 : K) ≤ 1 - 1e-15 := by norm_num
  have hlo1 : (1 - 1e-15 : K) ≤ 1 := by norm_num
  have hhi1 : (1 : K) ≤ 1 + 1e-15 := by norm_num
  intro k
  induction k with
  | zero => intro _; simp [rotAfter, normSq]
  | succ k ih =>
    intro hk
    obtain ⟨ihl, ihu⟩ := ih (by omega)
    obtain ⟨cl, cu⟩ := cosine_sq_bound (K := K) k (by omega)
    have hN : (0 : K) ≤ normSq (rotAfter op k) := normSq_nonneg _
    have hpl : (0 : K) ≤ (1 - 1e-15 : K) ^ k := pow_nonneg hlo0 k
    simp only [rotAfter, pow_succ]
    rcases rotPure_normSq (K := K) (op k) k (rotAfter op k) with h | h
    · rw [h]
      constructor
      · calc (1 - 1e-15 : K) ^ k * (1 - 1e-15) ≤ (1 - 1e-15 : K) ^ k * 1 :=
              mul_le_mul_of_nonneg_left hlo1 hpl
          _ = (1 - 1e-15 : K) ^ k := mul_one _
          _ ≤ normSq (rotAfter op k) := ihl
      · calc normSq (rotAfter op k) ≤ (1 + 1e-15 : K) ^ k := ihu
          _ = (1 + 1e-15 : K) ^ k * 1 := (mul_one _).symm
          _ ≤ (1 + 1e-15 : K) ^ k * (1 + 1e-15) :=
              mul_le_mul_of_nonneg_left hhi1 (le_trans hpl (le_trans ihl ihu))
    · rw [h]
      constructor
      · exact mul_le_mul ihl cl hlo0 hN
      · exact mul_le_mul ihu cu (le_trans hlo0 cl) (le_trans hN ihu)

theorem rotAfter_normSq_near_one {K : Type} [LinearOrderedField K] [FloorRing K]
    (op : Nat → Nat) (k : Nat) (hk : k ≤ 20) :
    |normSq (rotAfter op k : K × K × K) - 1| < 1e-12 := by
  obtain ⟨hl, hu⟩ := rotAfter_normSq_bounds (K := K) op k hk
  have hlo0 : (0 : K) ≤ 1 - 1e-15 := by norm_num
  have hlo1 : (1 - 1e-15 : K) ≤ 1 := by norm_num
  have hhi1 : (1 : K) ≤ 1 + 1e-15 := by norm_num
  have h1 : (1 - 1e-15 : K) ^ 20 ≤ (1 - 1e-15 : K) ^ k := pow_le_pow_of_le_one hlo0 hlo1 hk
  have h2 : (1 + 1e-15 : K) ^ k ≤ (1 + 1e-15 : K) ^ 20 := pow_le_pow_right₀ hhi1 hk
  have h3 : (1 - 1e-12 : K) < (1 - 1e-15 : K) ^ 20 := by norm_num
  have h4 : (1 + 1e-15 : K) ^ 20 < 1 + 1e-12 := by norm_num
  rw [abs_lt]
  constructor <;> linarith

/-! ## Evaluation at the double nearest `π/2` -/

theorem step_eval {K : Type} [LinearOrderedField K] (alpha s : K) (k : Nat) (hk : k < 20)
    (hs : sumAfter alpha k = s) (o : Nat) (s1 : K)
    (h : (if thetas k / 2 < alpha - s then (ADD_OP, s + thetas k)
          else if alpha - s < -(thetas k / 2) then (SUB_OP, s - thetas k)
          else (NUL_OP, s)) = (o, s1)) :
    sumAfter alpha (k + 1) = s1 ∧ opAt alpha k = o := by
  have e : approxStep alpha k (sumAfter alpha k) = (o, s1) := by
    rw [approxStep_eq alpha _ k hk, hs]
    exact h
  constructor
  · show (approxStep alpha k (sumAfter alpha k)).2 = s1
    rw [e]
  · show (approxStep alpha k (sumAfter alpha k)).1 = o
    rw [e]

theorem rotPure_eq {K : Type} [LinearOrderedField K] [FloorRing K] (op i : Nat)
    (v : K × K × K) :
    rotPure op i v =
      if op = ADD_OP then (v.1 - v.2.1 / 2 ^ i, v.1 / 2 ^ i + v.2.1, v.2.2 * cosine i)
      else if op = SUB_OP then (v.1 + v.2.1 / 2 ^ i, v.2.1 - v.1 / 2 ^ i, v.2.2 * cosine i)
      else v := by
  unfold rotPure
  simp only [right_shift_nat]

theorem rot_eval {K : Type} [LinearOrderedField K] [FloorRing K] (op : Nat → Nat) (k : Nat)
    (v : K × K × K) (hv : rotAfter op k = v) (o : Nat) (ho : op k = o) (v1 : K × K × K)
    (h : (if o = ADD_OP then (v.1 - v.2.1 / 2 ^ k, v.1 / 2 ^ k + v.2.1, v.2.2 * cosine k)
          else if o = SUB_OP then (v.1 + v.2.1 / 2 ^ k, v.2.1 - v.1 / 2 ^ k, v.2.2 * cosine k)
          else v) = v1) :
    rotAfter op (k + 1) = v1 := by
  show rotPure (op k) k (rotAfter op k) = v1
  rw [rotPure_eq, hv, ho]
  exact h

theorem halfpi_steps {K : Type} [LinearOrderedField K] :
    (sumAfter (1.5707963267948966 : K) 1 = (7853981633974483 / 10000000000000000) ∧ opAt (1.5707963267948966 : K) 0 = ADD_OP) ∧
    (sumAfter (1.5707963267948966 : K) 2 = (780653607748909 / 625000000000000) ∧ opAt (1.5707963267948966 : K) 1 = ADD_OP) ∧
    (sumAfter (1.5707963267948966 : K) 3 = (74701221776255927 / 50000000000000000) ∧ opAt (1.5707963267948966 : K) 2 = ADD_OP) ∧
    (sumAfter (1.5707963267948966 : K) 4 = (80918971503593999 / 50000000000000000) ∧ opAt (1.5707963267948966 : K) 3 = ADD_OP) ∧
    (sumAfter (1.5707963267948966 : K) 5 = (155596062007592263 / 100000000000000000) ∧ opAt (1.5707963267948966 : K) 4 = SUB_OP) ∧
    (sumAfter (1.5707963267948966 : K) 6 = (155596062007592263 / 100000000000000000) ∧ opAt (1.5707963267948966 : K) 5 = NUL_OP) ∧
    (sumAfter (1.5707963267948966 : K) 7 = (1571584348696399461 / 1000000000000000000) ∧ opAt (1.5707963267948966 : K) 6 = ADD_OP) ∧
    (sumAfter (1.5707963267948966 : K) 8 = (1571584348696399461 / 1000000000000000000) ∧ opAt (1.5707963267948966 : K) 7 = NUL_OP) ∧
    (sumAfter (1.5707963267948966 : K) 9 = (1571584348696399461 / 1000000000000000000) ∧ opAt (1.5707963267948966 : K) 8 = NUL_OP) ∧
    (sumAfter (1.5707963267948966 : K) 10 = (1571584348696399461 / 1000000000000000000) ∧ opAt (1.5707963267948966 : K) 9 = NUL_OP) ∧
    (sumAfter (1.5707963267948966 : K) 11 = (3141215573013680283 / 2000000000000000000) ∧ opAt (1.5707963267948966 : K) 10 = SUB_OP) ∧
    (sumAfter (1.5707963267948966 : K) 12 = (3141215573013680283 / 2000000000000000000) ∧ opAt (1.5707963267948966 : K) 11 = NUL_OP) ∧
    (sumAfter (1.5707963267948966 : K) 13 = (157085192712698950327 / 100000000000000000000) ∧ opAt (1.5707963267948966 : K) 12 = ADD_OP) ∧
    (sumAfter (1.5707963267948966 : K) 14 = (157085192712698950327 / 100000000000000000000) ∧ opAt (1.5707963267948966 : K) 13 = NUL_OP) ∧
    (sumAfter (1.5707963267948966 : K) 15 = (3141581783941630589 / 2000000000000000000) ∧ opAt (1.5707963267948966 : K) 14 = SUB_OP) ∧
    (sumAfter (1.5707963267948966 : K) 16 = (3141581783941630589 / 2000000000000000000) ∧ opAt (1.5707963267948966 : K) 15 = NUL_OP) ∧
    (sumAfter (1.5707963267948966 : K) 17 = (3141581783941630589 / 2000000000000000000) ∧ opAt (1.5707963267948966 : K) 16 = NUL_OP) ∧
    (sumAfter (1.5707963267948966 : K) 18 = (157079852136534639647 / 100000000000000000000) ∧ opAt (1.5707963267948966 : K) 17 = ADD_OP) ∧
    (sumAfter (1.5707963267948966 : K) 19 = (785397353334040394987 / 500000000000000000000) ∧ opAt (1.5707963267948966 : K) 18 = SUB_OP) ∧
    (sumAfter (1.5707963267948966 : K) 20 = (1570796614016713600161 / 1000000000000000000000) ∧ opAt (1.5707963267948966 : K) 19 = ADD_OP) := by
  have h0 : sumAfter (1.5707963267948966 : K) 0 = 0 := rfl
  have h1 := step_eval (1.5707963267948966 : K) 0 0 (by norm_num) h0 ADD_OP (7853981633974483 / 10000000000000000)
    (by simp only [thetas, thetasTable, List.getD_cons_zero, List.getD_cons_succ]; norm_num)
  have h2 := step_eval (1.5707963267948966 : K) (7853981633974483 / 10000000000000000) 1 (by norm_num) h1.1 ADD_OP (780653607748909 / 625000000000000)
    (by simp only [thetas, thetasTable, List.getD_cons_zero, List.getD_cons_succ]; norm_num)
  have h3 := step_eval (1.5707963267948966 : K) (780653607748909 / 625000000000000) 2 (by norm_num) h2.1 ADD_OP (74701221776255927 / 50000000000000000)
    (by simp only [thetas, thetasTable, List.getD_cons_zero, List.getD_cons_succ]; norm_num)
  have h4 := step_eval (1.5707963267948966 : K) (74701221776255927 / 50000000000000000) 3 (by norm_num) h3.1 ADD_OP (80918971503593999 / 50000000000000000)
    (by simp only [thetas, thetasTable, List.getD_cons_zero, List.getD_cons_succ]; norm_num)
  have h5 := step_eval (1.5707963267948966 : K) (80918971503593999 / 50000000000000000) 4 (by norm_num) h4.1 SUB_OP (155596062007592263 / 100000000000000000)
    (by simp only [thetas, thetasTable, List.getD_cons_zero, List.getD_cons_succ]; norm_num)
  have h6 := step_eval (1.5707963267948966 : K) (155596062007592263 / 100000000000000000) 5 (by norm_num) h5.1 NUL_OP (155596062007592263 / 100000000000000000)
    (by simp only [thetas, thetasTable, List.getD_cons_zero, List.getD_cons_succ]; norm_num)
  have h7 := step_eval (1.5707963267948966 : K) (155596062007592263 / 100000000000000000) 6 (by norm_num) h6.1 ADD_OP (1571584348696399461 / 1000000000000000000)
    (by simp only [thetas, thetasTable, List.getD_cons_zero, List.getD_cons_succ]; norm_num)
  have h8 := step_eval (1.5707963267948966 : K) (1571584348696399461 / 1000000000000000000) 7 (by norm_num) h7.1 NUL_OP (1571584348696399461 / 1000000000000000000)
    (by simp only [thetas, thetasTable, List.getD_cons_zero, List.getD_cons_succ]; norm_num)
  have h9 := step_eval (1.5707963267948966 : K) (1571584348696399461 / 1000000000000000000) 8 (by norm_num) h8.1 NUL_OP (1571584348696399461 / 1000000000000000000)
    (by simp only [thetas, thetasTable, List.getD_cons_zero, List.getD_cons_succ]; norm_num)
  have h10 := step_eval (1.5707963267948966 : K) (1571584348696399461 / 1000000000000000000) 9 (by norm_num) h9.1 NUL_OP (1571584348696399461 / 1000000000000000000)
    (by simp only [thetas, thetasTable, List.getD_cons_zero, List.getD_cons_succ]; norm_num)
  have h11 := step_eval (1.5707963267948966 : K) (1571584348696399461 / 1000000000000000000) 10 (by norm_num) h10.1 SUB_OP (3141215573013680283 / 2000000000000000000)
    (by simp only [thetas, thetasTable, List.getD_cons_zero, List.getD_cons_succ]; norm_num)
  have h12 := step_eval (1.5707963267948966 : K) (3141215573013680283 / 2000000000000000000) 11 (by norm_num) h11.1 NUL_OP (3141215573013680283 / 2000000000000000000)
    (by simp only [thetas, thetasTable, List.getD_cons_zero, List.getD_cons_succ]; norm_num)
  have h13 := step_eval (1.5707963267948966 : K) (3141215573013680283 / 2000000000000000000) 12 (by norm_num) h12.1 ADD_OP (157085192712698950327 / 100000000000000000000)
    (by simp only [thetas, thetasTable, List.getD_cons_zero, List.getD_cons_succ]; norm_num)
  have h14 := step_eval (1.5707963267948966 : K) (157085192712698950327 / 100000000000000000000) 13 (by norm_num) h13.1 NUL_OP (157085192712698950327 / 100000000000000000000)
    (by simp only [thetas, thetasTable, List.getD_cons_zero, List.getD_cons_succ]; norm_num)
  have h15 := step_eval (1.5707963267948966 : K) (157085192712698950327 / 100000000000000000000) 14 (by norm_num) h14.1 SUB_OP (3141581783941630589 / 2000000000000000000)
    (by simp only [thetas, thetasTable, List.getD_cons_zero, List.getD_cons_succ]; norm_num)
  have h16 := step_eval (1.5707963267948966 : K) (3141581783941630589 / 2000000000000000000) 15 (by norm_num) h15.1 NUL_OP (3141581783941630589 / 2000000000000000000)
    (by simp only [thetas, thetasTable, List.getD_cons_zero, List.getD_cons_succ]; norm_num)
  have h17 := step_eval (1.5707963267948966 : K) (3141581783941630589 / 2000000000000000000) 16 (by norm_num) h16.1 NUL_OP (3141581783941630589 / 2000000000000000000)
    (by simp only [thetas, thetasTable, List.getD_cons_zero, List.getD_cons_succ]; norm_num)
  have h18 := step_eval (1.5707963267948966 : K) (3141581783941630589 / 2000000000000000000) 17 (by norm_num) h17.1 ADD_OP (157079852136534639647 / 100000000000000000000)
    (by simp only [thetas, thetasTable, List.getD_cons_zero, List.getD_cons_succ]; norm_num)
  have h19 := step_eval (1.5707963267948966 : K) (157079852136534639647 / 100000000000000000000) 18 (by norm_num) h18.1 SUB_OP (785397353334040394987 / 500000000000000000000)
    (by simp only [thetas, thetasTable, List.getD_cons_zero, List.getD_cons_succ]; norm_num)
  have h20 := step_eval (1.5707963267948966 : K) (785397353334040394987 / 500000000000000000000) 19 (by norm_num) h19.1 ADD_OP (1570796614016713600161 / 1000000000000000000000)
    (by simp only [thetas, thetasTable, List.getD_cons_zero, List.getD_cons_succ]; norm_num)
  exact ⟨h1, h2, h3, h4, h5, h6, h7, h8, h9, h10, h11, h12, h13, h14, h15, h16, h17, h18, h19, h20⟩

theorem halfpi_len {K : Type} [LinearOrderedField K] (operations : Nat → Option Nat) :
    (approximate (1.5707963267948966 : K) operations).len = 20 := by
  obtain ⟨h1, h2, h3, h4, h5, h6, h7, h8, h9, h10, h11, h12, h13, h14, h15, h16, h17, h18, h19, h20⟩ := halfpi_steps (K := K)
  apply approximate_len_eq _ _ 20 (by norm_num) (by norm_num)
  · intro h; exact absurd h (lt_irrefl _)
  · intro k hk0 hkn
    interval_cases k
    · rw [h1.1]; simp only [not_lt, le_abs, ERR]; norm_num
    · rw [h2.1]; simp only [not_lt, le_abs, ERR]; norm_num
    · rw [h3.1]; simp only [not_lt, le_abs, ERR]; norm_num
    · rw [h4.1]; simp only [not_lt, le_abs, ERR]; norm_num
    · rw [h5.1]; simp only [not_lt, le_abs, ERR]; norm_num
    · rw [h6.1]; simp only [not_lt, le_abs, ERR]; norm_num
    · rw [h7.1]; simp only [not_lt, le_abs, ERR]; norm_num
    · rw [h8.1]; simp only [not_lt, le_abs, ERR]; norm_num
    · rw [h9.1]; simp only [not_lt, le_abs, ERR]; norm_num
    · rw [h10.1]; simp only [not_lt, le_abs, ERR]; norm_num
    · rw [h11.1]; simp only [not_lt, le_abs, ERR]; norm_num
    · rw [h12.1]; simp only [not_lt, le_abs, ERR]; norm_num
    · rw [h13.1]; simp only [not_lt, le_abs, ERR]; norm_num
    · rw [h14.1]; simp only [not_lt, le_abs, ERR]; norm_num
    · rw [h15.1]; simp only [not_lt, le_abs, ERR]; norm_num
    · rw [h16.1]; simp only [not_lt, le_abs, ERR]; norm_num
    · rw [h17.1]; simp only [not_lt, le_abs, ERR]; norm_num
    · rw [h18.1]; simp only [not_lt, le_abs, ERR]; norm_num
    · rw [h19.1]; simp only [not_lt, le_abs, ERR]; norm_num

theorem halfpi_rot {K : Type} [LinearOrderedField K] [FloorRing K] :
    rotAfter (opAt (1.5707963267948966 : K)) 20 =
      (((-(38352876198558942279767125 / 81129638414606681695789005144064)), (133530511702880396006833941012825 / 81129638414606681695789005144064), (949334039136189983152124691629377107075889542600789648659665710731054813141043306249208617537459209630902160559930038590331403048708096721865092388346286905104312811732057252015081317559 / 1562500000000000000000000000000000000000000000000000000000000000000000000000000000000000000000000000000000000000000000000000000000000000000000000000000000000000000000000000000000000000000)) : K × K × K) := by
  obtain ⟨h1, h2, h3, h4, h5, h6, h7, h8, h9, h10, h11, h12, h13, h14, h15, h16, h17, h18, h19, h20⟩ := halfpi_steps (K := K)
  have r0 : rotAfter (opAt (1.5707963267948966 : K)) 0 = ((1, 0, 1) : K × K × K) := rfl
  have r1 := rot_eval (opAt (1.5707963267948966 : K)) 0 _ r0 ADD_OP h1.2
    ((1, 1, (1767766952966369 / 2500000000000000)) : K × K × K)
    (by simp only [cosine, cosineTable, List.getD_cons_zero, List.getD_cons_succ]; norm_num [ADD_OP, SUB_OP, NUL_OP])
  have r2 := rot_eval (opAt (1.5707963267948966 : K)) 1 _ r1 ADD_OP h2.2
    (((1 / 2), (3 / 2), (15811388300841898729387345283671 / 25000000000000000000000000000000)) : K × K × K)
    (by simp only [cosine, cosineTable, List.getD_cons_zero, List.getD_cons_succ]; norm_num [ADD_OP, SUB_OP, NUL_OP])
  have r3 := rot_eval (opAt (1.5707963267948966 : K)) 2 _ r2 ADD_OP h3.2
    (((1 / 8), (13 / 8), (153392997769474108414737873638132418435319454049 / 250000000000000000000000000000000000000000000000)) : K × K × K)
    (by simp only [cosine, cosineTable, List.getD_cons_zero, List.getD_cons_succ]; norm_num [ADD_OP, SUB_OP, NUL_OP])
  have r4 := rot_eval (opAt (1.5707963267948966 : K)) 3 _ r3 ADD_OP h4.2
    (((-(5 / 64)), (105 / 64), (380521195323595296274289411412220529200428156980378774821150281 / 625000000000000000000000000000000000000000000000000000000000000)) : K × K × K)
    (by simp only [cosine, cosineTable, List.getD_cons_zero, List.getD_cons_succ]; norm_num [ADD_OP, SUB_OP, NUL_OP])
  have r5 := rot_eval (opAt (1.5707963267948966 : K)) 4 _ r4 SUB_OP h5.2
    (((25 / 1024), (1685 / 1024), (759560320320210277806492578806033044631483307585713367417500325765394890933337 / 1250000000000000000000000000000000000000000000000000000000000000000000000000000)) : K × K × K)
    (by simp only [cosine, cosineTable, List.getD_cons_zero, List.getD_cons_succ]; norm_num [ADD_OP, SUB_OP, NUL_OP])
  have r6 := rot_eval (opAt (1.5707963267948966 : K)) 5 _ r5 NUL_OP h6.2
    (((25 / 1024), (1685 / 1024), (759560320320210277806492578806033044631483307585713367417500325765394890933337 / 1250000000000000000000000000000000000000000000000000000000000000000000000000000)) : K × K × K)
    (by simp only [cosine, cosineTable, List.getD_cons_zero, List.getD_cons_succ]; norm_num [ADD_OP, SUB_OP, NUL_OP])
  have r7 := rot_eval (opAt (1.5707963267948966 : K)) 6 _ r6 ADD_OP h7.2
    (((-(85 / 65536)), (107865 / 65536), (7594676175285890099641126436513545278799010826043918490741123556821962750702164734452234072161 / 12500000000000000000000000000000000000000000000000000000000000000000000000000000000000000000000)) : K × K × K)
    (by simp only [cosine, cosineTable, List.getD_cons_zero, List.getD_cons_succ]; norm_num [ADD_OP, SUB_OP, NUL_OP])
  have r8 := rot_eval (opAt (1.5707963267948966 : K)) 7 _ r7 NUL_OP h8.2
    (((-(85 / 65536)), (107865 / 65536), (7594676175285890099641126436513545278799010826043918490741123556821962750702164734452234072161 / 12500000000000000000000000000000000000000000000000000000000000000000000000000000000000000000000)) : K × K × K)
    (by simp only [cosine, cosineTable, List.getD_cons_zero, List.getD_cons_succ]; norm_num [ADD_OP, SUB_OP, NUL_OP])
  have r9 := rot_eval (opAt (1.5707963267948966 : K)) 8 _ r8 NUL_OP h9.2
    (((-(85 / 65536)), (107865 / 65536), (7594676175285890099641126436513545278799010826043918490741123556821962750702164734452234072161 / 12500000000000000000000000000000000000000000000000000000000000000000000000000000000000000000000)) : K × K × K)
    (by simp only [cosine, cosineTable, List.getD_cons_zero, List.getD_cons_succ]; norm_num [ADD_OP, SUB_OP, NUL_OP])
  have r10 := rot_eval (opAt (1.5707963267948966 : K)) 9 _ r9 NUL_OP h10.2
    (((-(85 / 65536)), (107865 / 65536), (7594676175285890099641126436513545278799010826043918490741123556821962750702164734452234072161 / 12500000000000000000000000000000000000000000000000000000000000000000000000000000000000000000000)) : K × K × K)
    (by simp only [cosine, cosineTable, List.getD_cons_zero, List.getD_cons_succ]; norm_num [ADD_OP, SUB_OP, NUL_OP])
  have r11 := rot_eval (opAt (1.5707963267948966 : K)) 10 _ r10 SUB_OP h11.2
    (((20825 / 67108864), (110453845 / 67108864), (75946725538646757711156087832369630330148590467914855715172456199887858378864553148712120160909930465770412469 / 125000000000000000000000000000000000000000000000000000000000000000000000000000000000000000000000000000000000000)) : K × K × K)
    (by simp only [cosine, cosineTable, List.getD_cons_zero, List.getD_cons_succ]; norm_num [ADD_OP, SUB_OP, NUL_OP])
  have r12 := rot_eval (opAt (1.5707963267948966 : K)) 11 _ r11 NUL_OP h12.2
    (((20825 / 67108864), (110453845 / 67108864), (75946725538646757711156087832369630330148590467914855715172456199887858378864553148712120160909930465770412469 / 125000000000000000000000000000000000000000000000000000000000000000000000000000000000000000000000000000000000000)) : K × K × K)
    (by simp only [cosine, cosineTable, List.getD_cons_zero, List.getD_cons_succ]; norm_num [ADD_OP, SUB_OP, NUL_OP])
  have r13 := rot_eval (opAt (1.5707963267948966 : K)) 12 _ r12 ADD_OP h13.2
    (((-(25154645 / 274877906944)), (452418969945 / 274877906944), (75946723275258064309507508915270619645674676717490584892833725507633748351366433739251091701430588839761012640430655296459451 / 125000000000000000000000000000000000000000000000000000000000000000000000000000000000000000000000000000000000000000000000000000)) : K × K × K)
    (by simp only [cosine, cosineTable, List.getD_cons_zero, List.getD_cons_succ]; norm_num [ADD_OP, SUB_OP, NUL_OP])
  have r14 := rot_eval (opAt (1.5707963267948966 : K)) 13 _ r13 NUL_OP h14.2
    (((-(25154645 / 274877906944)), (452418969945 / 274877906944), (75946723275258064309507508915270619645674676717490584892833725507633748351366433739251091701430588839761012640430655296459451 / 125000000000000000000000000000000000000000000000000000000000000000000000000000000000000000000000000000000000000000000000000000)) : K × K × K)
    (by simp only [cosine, cosineTable, List.getD_cons_zero, List.getD_cons_succ]; norm_num [ADD_OP, SUB_OP, NUL_OP])
  have r15 := rot_eval (opAt (1.5707963267948966 : K)) 14 _ r14 SUB_OP h15.2
    (((40285266265 / 4503599627370496), (7412432428733525 / 4503599627370496), (759467231337962723397921241936815747514395418605109121109158032608629844198274197779453255925398652124406633479351199307232290222607562461599 / 1250000000000000000000000000000000000000000000000000000000000000000000000000000000000000000000000000000000000000000000000000000000000000000000)) : K × K × K)
    (by simp only [cosine, cosineTable, List.getD_cons_zero, List.getD_cons_succ]; norm_num [ADD_OP, SUB_OP, NUL_OP])
  have r16 := rot_eval (opAt (1.5707963267948966 : K)) 15 _ r15 NUL_OP h16.2
    (((40285266265 / 4503599627370496), (7412432428733525 / 4503599627370496), (759467231337962723397921241936815747514395418605109121109158032608629844198274197779453255925398652124406633479351199307232290222607562461599 / 1250000000000000000000000000000000000000000000000000000000000000000000000000000000000000000000000000000000000000000000000000000000000000000000)) : K × K × K)
    (by simp only [cosine, cosineTable, List.getD_cons_zero, List.getD_cons_succ]; norm_num [ADD_OP, SUB_OP, NUL_OP])
  have r17 := rot_eval (opAt (1.5707963267948966 : K)) 16 _ r16 NUL_OP h17.2
    (((40285266265 / 4503599627370496), (7412432428733525 / 4503599627370496), (759467231337962723397921241936815747514395418605109121109158032608629844198274197779453255925398652124406633479351199307232290222607562461599 / 1250000000000000000000000000000000000000000000000000000000000000000000000000000000000000000000000000000000000000000000000000000000000000000000)) : K × K × K)
    (by simp only [cosine, cosineTable, List.getD_cons_zero, List.getD_cons_succ]; norm_num [ADD_OP, SUB_OP, NUL_OP])
  have r18 := rot_eval (opAt (1.5707963267948966 : K)) 17 _ r17 ADD_OP h18.2
    (((-(2132162008847445 / 590295810358705651712)), (971562343339245855065 / 590295810358705651712), (3797336156579296704952537212137936636366573602262998298625793288848465653244195782599377616640325002273025080938264467638879743941048676667091370118150575119 / 6250000000000000000000000000000000000000000000000000000000000000000000000000000000000000000000000000000000000000000000000000000000000000000000000000000000000)) : K × K × K)
    (by simp only [cosine, cosineTable, List.getD_cons_zero, List.getD_cons_succ]; norm_num [ADD_OP, SUB_OP, NUL_OP])
  have r19 := rot_eval (opAt (1.5707963267948966 : K)) 18 _ r18 SUB_OP h19.2
    (((412628865691941232985 / 154742504910672534362390528), (254689238934455427439006805 / 154742504910672534362390528), (949334039137916821769316562328175493902764493824198777273931928306916095318633586626593212031532982683587519055431484287493232918627046912544074986680204577505084103858539 / 1562500000000000000000000000000000000000000000000000000000000000000000000000000000000000000000000000000000000000000000000000000000000000000000000000000000000000000000000000)) : K × K × K)
    (by simp only [cosine, cosineTable, List.getD_cons_zero, List.getD_cons_succ]; norm_num [ADD_OP, SUB_OP, NUL_OP])
  have r20 := rot_eval (opAt (1.5707963267948966 : K)) 19 _ r19 ADD_OP h20.2
    (((-(38352876198558942279767125 / 81129638414606681695789005144064)), (133530511702880396006833941012825 / 81129638414606681695789005144064), (949334039136189983152124691629377107075889542600789648659665710731054813141043306249208617537459209630902160559930038590331403048708096721865092388346286905104312811732057252015081317559 / 1562500000000000000000000000000000000000000000000000000000000000000000000000000000000000000000000000000000000000000000000000000000000000000000000000000000000000000000000000000000000000000)) : K × K × K)
    (by simp only [cosine, cosineTable, List.getD_cons_zero, List.getD_cons_succ]; norm_num [ADD_OP, SUB_OP, NUL_OP])
  exact r20


/-! ## The rotation loop as a rotation -/

theorem rotAfter_mul {K : Type} [LinearOrderedField K] [FloorRing K] (op : Nat → Nat) :
    ∀ k, (rotAfter op k : K × K × K).2.2 = stretch cosine op k := by
  intro k
  induction k with
  | zero => rfl
  | succ k ih =>
    simp only [rotAfter, stretch, rotPure]
    split_ifs with h1 h2 h3 h4
    · simp [ih]
    · exact absurd (Or.inl h1) h2
    · simp [ih]
    · exact absurd (Or.inr h3) h4
    · rcases ‹op k = ADD_OP ∨ op k = SUB_OP› with h | h
      · exact absurd h h1
      · exact absurd h h3
    · simp [ih]

theorem rotAfter_polar (op : Nat → Nat) :
    ∀ k, (rotAfter op k : ℝ × ℝ × ℝ).1 =
        stretch (fun i => Real.sqrt (1 + (1 / 2 ^ i) ^ 2)) op k *
          Real.cos (angleSum (fun i => Real.arctan (1 / 2 ^ i)) op k) ∧
      (rotAfter op k : ℝ × ℝ × ℝ).2.1 =
        stretch (fun i => Real.sqrt (1 + (1 / 2 ^ i) ^ 2)) op k *
          Real.sin (angleSum (fun i => Real.arctan (1 / 2 ^ i)) op k) := by
  intro k
  induction k with
  | zero => simp [rotAfter, stretch, angleSum]
  | succ k ih =>
    obtain ⟨ihx, ihy⟩ := ih
    have hs : Real.sqrt (1 + (1 / 2 ^ k : ℝ) ^ 2) ≠ 0 := by
      apply ne_of_gt
      apply Real.sqrt_pos.mpr
      positivity
    have h2 : ((2 : ℝ) ^ k) ≠ 0 := pow_ne_zero _ two_ne_zero
    simp only [rotAfter, rotPure_eq, stretch, angleSum]
    by_cases h1 : op k = ADD_OP
    · simp only [h1, if_true, true_or]
      rw [Real.cos_add, Real.sin_add, Real.cos_arctan, Real.sin_arctan, ihx, ihy]
      constructor
      · field_simp
        ring
      · field_simp
        ring
    · by_cases h3 : op k = SUB_OP
      · have hne : ¬ (SUB_OP = ADD_OP) := by decide
        simp only [h3, hne, if_true, if_false, or_true]
        rw [← sub_eq_add_neg, Real.cos_sub, Real.sin_sub, Real.cos_arctan, Real.sin_arctan,
          ihx, ihy]
        constructor
        · field_simp
          ring
        · field_simp
          ring
      · simp only [h1, h3, if_false, or_self, add_zero, mul_one]
        exact ⟨ihx, ihy⟩

theorem stretch_pos {K : Type} [LinearOrderedField K] (f : Nat → K) (op : Nat → Nat) (n : Nat)
    (hf : ∀ i, i < n → 0 < f i) : ∀ k, k ≤ n → 0 < stretch f op k := by
  intro k
  induction k with
  | zero => intro _; exact one_pos
  | succ k ih =>
    intro hk
    simp only [stretch]
    apply mul_pos (ih (by omega))
    split_ifs
    · exact hf k (by omega)
    · exact one_pos

theorem cosine_pos {K : Type} [LinearOrderedField K] (i : Nat) (hi : i < 20) :
    (0 : K) < cosine i := by
  interval_cases i <;>
    simp only [cosine, cosineTable, List.getD_cons_zero, List.getD_cons_succ] <;> norm_num

theorem sumAfter_eq_angleSum {K : Type} [LinearOrderedField K] (alpha : K) :
    ∀ k, sumAfter alpha k = angleSum thetas (opAt alpha) k := by
  intro k
  induction k with
  | zero => rfl
  | succ k ih =>
    simp only [sumAfter, angleSum]
    rw [approxStep_snd, ← ih]
    simp [signedTheta, opAt]

theorem angleSum_close (arc1 arc2 : Nat → ℝ) (e : ℝ) (op : Nat → Nat) (n : Nat)
    (h : ∀ i, i < n → |arc1 i - arc2 i| ≤ e) :
    ∀ k, k ≤ n → |angleSum arc1 op k - angleSum arc2 op k| ≤ k * e := by
  intro k
  induction k with
  | zero => intro _; simp [angleSum]
  | succ k ih =>
    intro hk
    have ih := ih (by omega)
    have hk1 := h k (by omega)
    have hk2 : |-arc1 k - -arc2 k| ≤ e := by
      rw [show -arc1 k - -arc2 k = -(arc1 k - arc2 k) by ring, abs_neg]; exact hk1
    have he : (0 : ℝ) ≤ e := le_trans (abs_nonneg _) hk1
    simp only [angleSum]
    push_cast
    split_ifs
    · calc |angleSum arc1 op k + arc1 k - (angleSum arc2 op k + arc2 k)|
          = |(angleSum arc1 op k - angleSum arc2 op k) + (arc1 k - arc2 k)| := by ring_nf
        _ ≤ |angleSum arc1 op k - angleSum arc2 op k| + |arc1 k - arc2 k| := abs_add _ _
        _ ≤ k * e + e := add_le_add ih hk1
        _ = (k + 1) * e := by ring
    · calc |angleSum arc1 op k + -arc1 k - (angleSum arc2 op k + -arc2 k)|
          = |(angleSum arc1 op k - angleSum arc2 op k) + (-arc1 k - -arc2 k)| := by ring_nf
        _ ≤ |angleSum arc1 op k - angleSum arc2 op k| + |-arc1 k - -arc2 k| := abs_add _ _
        _ ≤ k * e + e := add_le_add ih hk2
        _ = (k + 1) * e := by ring
    · simp only [add_zero]
      linarith

theorem abs_cos_sub_cos_le (a b : ℝ) : |Real.cos a - Real.cos b| ≤ |a - b| := by
  rw [Real.cos_sub_cos, abs_mul, abs_mul]
  have h1 : |Real.sin ((a + b) / 2)| ≤ 1 := Real.abs_sin_le_one _
  have h2 : |Real.sin ((a - b) / 2)| ≤ |(a - b) / 2| := Real.abs_sin_le_abs
  have h3 : |(a - b) / 2| = |a - b| / 2 := by rw [abs_div]; norm_num
  have h4 : |(-2 : ℝ)| = 2 := by norm_num
  rw [h4]
  have h5 := abs_nonneg (Real.sin ((a + b) / 2))
  have h6 := abs_nonneg (Real.sin ((a - b) / 2))
  nlinarith

theorem abs_sin_sub_sin_le (a b : ℝ) : |Real.sin a - Real.sin b| ≤ |a - b| := by
  rw [Real.sin_sub_sin, abs_mul, abs_mul]
  have h1 : |Real.cos ((a + b) / 2)| ≤ 1 := Real.abs_cos_le_one _
  have h2 : |Real.sin ((a - b) / 2)| ≤ |(a - b) / 2| := Real.abs_sin_le_abs
  have h3 : |(a - b) / 2| = |a - b| / 2 := by rw [abs_div]; norm_num
  have h4 : |(2 : ℝ)| = 2 := by norm_num
  rw [h4]
  have h5 := abs_nonneg (Real.cos ((a + b) / 2))
  have h6 := abs_nonneg (Real.sin ((a - b) / 2))
  nlinarith

/-! ## The table angles against `arctan` -/

theorem arctan_series_bounds (x : ℝ) (h0 : 0 ≤ x) (h1 : x < 1) (k : ℕ) :
    ∑ i in Finset.range (2 * k), (-1 : ℝ) ^ i * (x ^ (2 * i + 1) / ((2 * i + 1 : ℕ) : ℝ)) ≤ Real.arctan x ∧
    Real.arctan x ≤
      ∑ i in Finset.range (2 * k + 1), (-1 : ℝ) ^ i * (x ^ (2 * i + 1) / ((2 * i + 1 : ℕ) : ℝ)) := by
  have hx : ‖x‖ < 1 := by rw [Real.norm_eq_abs, abs_of_nonneg h0]; exact h1
  have hs := (Real.hasSum_arctan hx).tendsto_sum_nat
  simp only [mul_div_assoc] at hs
  have hanti : Antitone (fun i : ℕ => x ^ (2 * i + 1) / ((2 * i + 1 : ℕ) : ℝ)) := by
    intro a b hab
    dsimp only
    have hp : x ^ (2 * b + 1) ≤ x ^ (2 * a + 1) :=
      pow_le_pow_of_le_one h0 (le_of_lt h1) (by omega)
    have hd : ((2 * a + 1 : ℕ) : ℝ) ≤ ((2 * b + 1 : ℕ) : ℝ) := by
      exact_mod_cast (by omega : 2 * a + 1 ≤ 2 * b + 1)
    have hpos : (0 : ℝ) < ((2 * a + 1 : ℕ) : ℝ) := by positivity
    exact div_le_div₀ (pow_nonneg h0 _) hp hpos hd
  exact ⟨hanti.alternating_series_le_tendsto hs k, hanti.tendsto_le_alternating_series hs k⟩

theorem thetas_close_arctan (i : Nat) (hi : i < 20) :
    |(thetas i : ℝ) - Real.arctan (1 / 2 ^ i)| < 1e-15 := by
  interval_cases i
  · have h1 := Real.pi_gt_d20
    have h2 := Real.pi_lt_d20
    simp only [thetas, thetasTable, List.getD_cons_zero, pow_zero, div_one, Real.arctan_one]
    rw [abs_lt]
    norm_num at h1 h2 ⊢
    constructor <;> linarith
  · obtain ⟨hl, hu⟩ := arctan_series_bounds (1 / 2 ^ 1) (by norm_num) (by norm_num) 11
    simp only [Finset.sum_range_succ, Finset.sum_range_zero] at hl hu
    simp only [thetas, thetasTable, List.getD_cons_zero, List.getD_cons_succ]
    rw [abs_lt]
    norm_num at hl hu ⊢
    constructor <;> linarith
  · obtain ⟨hl, hu⟩ := arctan_series_bounds (1 / 2 ^ 2) (by norm_num) (by norm_num) 6
    simp only [Finset.sum_range_succ, Finset.sum_range_zero] at hl hu
    simp only [thetas, thetasTable, List.getD_cons_zero, List.getD_cons_succ]
    rw [abs_lt]
    norm_num at hl hu ⊢
    constructor <;> linarith
  · obtain ⟨hl, hu⟩ := arctan_series_bounds (1 / 2 ^ 3) (by norm_num) (by norm_num) 4
    simp only [Finset.sum_range_succ, Finset.sum_range_zero] at hl hu
    simp only [thetas, thetasTable, List.getD_cons_zero, List.getD_cons_succ]
    rw [abs_lt]
    norm_num at hl hu ⊢
    constructor <;> linarith
  · obtain ⟨hl, hu⟩ := arctan_series_bounds (1 / 2 ^ 4) (by norm_num) (by norm_num) 3
    simp only [Finset.sum_range_succ, Finset.sum_range_zero] at hl hu
    simp only [thetas, thetasTable, List.getD_cons_zero, List.getD_cons_succ]
    rw [abs_lt]
    norm_num at hl hu ⊢
    constructor <;> linarith
  · obtain ⟨hl, hu⟩ := arctan_series_bounds (1 / 2 ^ 5) (by norm_num) (by norm_num) 3
    simp only [Finset.sum_range_succ, Finset.sum_range_zero] at hl hu
    simp only [thetas, thetasTable, List.getD_cons_zero, List.getD_cons_succ]
    rw [abs_lt]
    norm_num at hl hu ⊢
    constructor <;> linarith
  · obtain ⟨hl, hu⟩ := arctan_series_bounds (1 / 2 ^ 6) (by norm_num) (by norm_num) 2
    simp only [Finset.sum_range_succ, Finset.sum_range_zero] at hl hu
    simp only [thetas, thetasTable, List.getD_cons_zero, List.getD_cons_succ]
    rw [abs_lt]
    norm_num at hl hu ⊢
    constructor <;> linarith
  · obtain ⟨hl, hu⟩ := arctan_series_bounds (1 / 2 ^ 7) (by norm_num) (by norm_num) 2
    simp only [Finset.sum_range_succ, Finset.sum_range_zero] at hl hu
    simp only [thetas, thetasTable, List.getD_cons_zero, List.getD_cons_succ]
    rw [abs_lt]
    norm_num at hl hu ⊢
    constructor <;> linarith
  · obtain ⟨hl, hu⟩ := arctan_series_bounds (1 / 2 ^ 8) (by norm_num) (by norm_num) 2
    simp only [Finset.sum_range_succ, Finset.sum_range_zero] at hl hu
    simp only [thetas, thetasTable, List.getD_cons_zero, List.getD_cons_succ]
    rw [abs_lt]
    norm_num at hl hu ⊢
    constructor <;> linarith
  · obtain ⟨hl, hu⟩ := arctan_series_bounds (1 / 2 ^ 9) (by norm_num) (by norm_num) 2
    simp only [Finset.sum_range_succ, Finset.sum_range_zero] at hl hu
    simp only [thetas, thetasTable, List.getD_cons_zero, List.getD_cons_succ]
    rw [abs_lt]
    norm_num at hl hu ⊢
    constructor <;> linarith
  · obtain ⟨hl, hu⟩ := arctan_series_bounds (1 / 2 ^ 10) (by norm_num) (by norm_num) 1
    simp only [Finset.sum_range_succ, Finset.sum_range_zero] at hl hu
    simp only [thetas, thetasTable, List.getD_cons_zero, List.getD_cons_succ]
    rw [abs_lt]
    norm_num at hl hu ⊢
    constructor <;> linarith
  · obtain ⟨hl, hu⟩ := arctan_series_bounds (1 / 2 ^ 11) (by norm_num) (by norm_num) 1
    simp only [Finset.sum_range_succ, Finset.sum_range_zero] at hl hu
    simp only [thetas, thetasTable, List.getD_cons_zero, List.getD_cons_succ]
    rw [abs_lt]
    norm_num at hl hu ⊢
    constructor <;> linarith
  · obtain ⟨hl, hu⟩ := arctan_series_bounds (1 / 2 ^ 12) (by norm_num) (by norm_num) 1
    simp only [Finset.sum_range_succ, Finset.sum_range_zero] at hl hu
    simp only [thetas, thetasTable, List.getD_cons_zero, List.getD_cons_succ]
    rw [abs_lt]
    norm_num at hl hu ⊢
    constructor <;> linarith
  · obtain ⟨hl, hu⟩ := arctan_series_bounds (1 / 2 ^ 13) (by norm_num) (by norm_num) 1
    simp only [Finset.sum_range_succ, Finset.sum_range_zero] at hl hu
    simp only [thetas, thetasTable, List.getD_cons_zero, List.getD_cons_succ]
    rw [abs_lt]
    norm_num at hl hu ⊢
    constructor <;> linarith
  · obtain ⟨hl, hu⟩ := arctan_series_bounds (1 / 2 ^ 14) (by norm_num) (by norm_num) 1
    simp only [Finset.sum_range_succ, Finset.sum_range_zero] at hl hu
    simp only [thetas, thetasTable, List.getD_cons_zero, List.getD_cons_succ]
    rw [abs_lt]
    norm_num at hl hu ⊢
    constructor <;> linarith
  · obtain ⟨hl, hu⟩ := arctan_series_bounds (1 / 2 ^ 15) (by norm_num) (by norm_num) 1
    simp only [Finset.sum_range_succ, Finset.sum_range_zero] at hl hu
    simp only [thetas, thetasTable, List.getD_cons_zero, List.getD_cons_succ]
    rw [abs_lt]
    norm_num at hl hu ⊢
    constructor <;> linarith
  · obtain ⟨hl, hu⟩ := arctan_series_bounds (1 / 2 ^ 16) (by norm_num) (by norm_num) 1
    simp only [Finset.sum_range_succ, Finset.sum_range_zero] at hl hu
    simp only [thetas, thetasTable, List.getD_cons_zero, List.getD_cons_succ]
    rw [abs_lt]
    norm_num at hl hu ⊢
    constructor <;> linarith
  · obtain ⟨hl, hu⟩ := arctan_series_bounds (1 / 2 ^ 17) (by norm_num) (by norm_num) 1
    simp only [Finset.sum_range_succ, Finset.sum_range_zero] at hl hu
    simp only [thetas, thetasTable, List.getD_cons_zero, List.getD_cons_succ]
    rw [abs_lt]
    norm_num at hl hu ⊢
    constructor <;> linarith
  · obtain ⟨hl, hu⟩ := arctan_series_bounds (1 / 2 ^ 18) (by norm_num) (by norm_num) 1
    simp only [Finset.sum_range_succ, Finset.sum_range_zero] at hl hu
    simp only [thetas, thetasTable, List.getD_cons_zero, List.getD_cons_succ]
    rw [abs_lt]
    norm_num at hl hu ⊢
    constructor <;> linarith
  · obtain ⟨hl, hu⟩ := arctan_series_bounds (1 / 2 ^ 19) (by norm_num) (by norm_num) 1
    simp only [Finset.sum_range_succ, Finset.sum_range_zero] at hl hu
    simp only [thetas, thetasTable, List.getD_cons_zero, List.getD_cons_succ]
    rw [abs_lt]
    norm_num at hl hu ⊢
    constructor <;> linarith


/-! ## The error of `c_sin` against `cos` and `sin` -/

theorem abs_sub_one_le_of_sq (r : ℝ) (hr : 0 ≤ r) : |r - 1| ≤ |r ^ 2 - 1| := by
  have h : r ^ 2 - 1 = (r - 1) * (r + 1) := by ring
  rw [h, abs_mul]
  have h1 : (1 : ℝ) ≤ |r + 1| := by rw [abs_of_nonneg (by linarith)]; linarith
  have h2 := abs_nonneg (r - 1)
  nlinarith

theorem scaled_trig_close (rho t u v : ℝ) (ht : |t| ≤ 1) (e1 e2 : ℝ)
    (h1 : |rho - 1| ≤ e1) (h2 : |t - u| ≤ e2) (hv : v = rho * t) : |v - u| ≤ e1 + e2 := by
  have e : v - u = (rho - 1) * t + (t - u) := by rw [hv]; ring
  have h3 : |(rho - 1) * t| ≤ e1 := by
    rw [abs_mul]
    have := abs_nonneg (rho - 1)
    have := abs_nonneg t
    nlinarith
  rw [e]
  exact le_trans (abs_add _ _) (add_le_add h3 h2)

/-- The absolute error of both fields of `c_sin` on `[0, π/2]`. -/
theorem c_sin_abs_error (alpha : ℝ) (h0 : 0 ≤ alpha) (h1 : alpha ≤ Real.pi / 2) :
    ∃ r, c_sin alpha = some r ∧
      |r.cosine - Real.cos alpha| < 1.1e-6 ∧ |r.sine - Real.sin alpha| < 1.1e-6 := by
  refine ⟨_, c_sin_eq alpha, ?_⟩
  obtain ⟨_, g2, g3, _, _, _⟩ := approximate_spec alpha (fun _ => none)
  have hbound : alpha ≤ 1.575 := by
    have := Real.pi_lt_d2
    norm_num at this ⊢
    linarith
  have hconv := approximate_converges alpha h0 hbound (fun _ => none)
  rw [g3, sumAfter_eq_angleSum] at hconv
  generalize (approximate alpha (fun _ => none)).len = n at g2 hconv ⊢
  obtain ⟨px, py⟩ := rotAfter_polar (opAt alpha) n
  have pm := rotAfter_mul (K := ℝ) (opAt alpha) n
  have hR : 0 < stretch (fun i => Real.sqrt (1 + (1 / 2 ^ i : ℝ) ^ 2)) (opAt alpha) n :=
    stretch_pos _ _ 20 (fun i _ => Real.sqrt_pos.mpr (by positivity)) n g2
  have hm : 0 < stretch (cosine : Nat → ℝ) (opAt alpha) n :=
    stretch_pos _ _ 20 (fun i hi => cosine_pos i hi) n g2
  have hN := rotAfter_normSq_near_one (K := ℝ) (opAt alpha) n g2
  have hrho2 : normSq (rotAfter (opAt alpha) n : ℝ × ℝ × ℝ) =
      (stretch (fun i => Real.sqrt (1 + (1 / 2 ^ i : ℝ) ^ 2)) (opAt alpha) n *
        stretch (cosine : Nat → ℝ) (opAt alpha) n) ^ 2 := by
    unfold normSq
    rw [px, py, pm]
    have := Real.cos_sq_add_sin_sq (angleSum (fun i => Real.arctan (1 / 2 ^ i)) (opAt alpha) n)
    linear_combination
      (stretch (fun i => Real.sqrt (1 + (1 / 2 ^ i : ℝ) ^ 2)) (opAt alpha) n *
        stretch (cosine : Nat → ℝ) (opAt alpha) n) ^ 2 * this
  rw [hrho2] at hN
  have hrho : |stretch (fun i => Real.sqrt (1 + (1 / 2 ^ i : ℝ) ^ 2)) (opAt alpha) n *
        stretch (cosine : Nat → ℝ) (opAt alpha) n - 1| ≤ 1e-12 :=
    le_trans (abs_sub_one_le_of_sq _ (le_of_lt (mul_pos hR hm))) (le_of_lt hN)
  have hang := angleSum_close (fun i => Real.arctan (1 / 2 ^ i)) thetas 1e-15 (opAt alpha) 20
    (fun i hi => by
      rw [abs_sub_comm]
      exact le_of_lt (thetas_close_arctan i hi)) n g2
  have hn : (n : ℝ) ≤ 20 := by exact_mod_cast g2
  have hS : |angleSum (fun i => Real.arctan (1 / 2 ^ i)) (opAt alpha) n - alpha| ≤ 1.00001e-6 := by
    have e : angleSum (fun i => Real.arctan (1 / 2 ^ i)) (opAt alpha) n - alpha =
        (angleSum (fun i => Real.arctan (1 / 2 ^ i)) (opAt alpha) n -
          angleSum thetas (opAt alpha) n) + -(alpha - angleSum thetas (opAt alpha) n) := by ring
    rw [e]
    refine le_trans (abs_add _ _) ?_
    rw [abs_neg]
    have hE : (ERR : ℝ) = 1e-6 := rfl
    rw [hE] at hconv
    norm_num at hang hconv ⊢
    nlinarith
  constructor
  · have := scaled_trig_close _ _ (Real.cos alpha) _ (Real.abs_cos_le_one _) _ _ hrho
      (le_trans (abs_cos_sub_cos_le _ _) hS)
      (show (rotAfter (opAt alpha) n : ℝ × ℝ × ℝ).1 * (rotAfter (opAt alpha) n).2.2 = _ by
        rw [px, pm]; ring)
    refine lt_of_le_of_lt this ?_
    norm_num
  · have := scaled_trig_close _ _ (Real.sin alpha) _ (Real.abs_sin_le_one _) _ _ hrho
      (le_trans (abs_sin_sub_sin_le _ _) hS)
      (show (rotAfter (opAt alpha) n : ℝ × ℝ × ℝ).2.1 * (rotAfter (opAt alpha) n).2.2 = _ by
        rw [py, pm]; ring)
    refine lt_of_le_of_lt this ?_
    norm_num

/-! ## Evaluation at `alpha = 5e-7` -/

theorem tiny_step {K : Type} [LinearOrderedField K] :
    sumAfter (5e-7 : K) 1 = 0 ∧ opAt (5e-7 : K) 0 = NUL_OP :=
  step_eval (5e-7 : K) 0 0 (by norm_num) rfl NUL_OP 0
    (by simp only [thetas, thetasTable, List.getD_cons_zero]; norm_num)

theorem tiny_len {K : Type} [LinearOrderedField K] (operations : Nat → Option Nat) :
    (approximate (5e-7 : K) operations).len = 1 := by
  apply approximate_len_eq _ _ 1 (by norm_num) (by norm_num)
  · intro _; rw [tiny_step.1]; simp only [abs_lt, ERR]; norm_num
  · intro k h1 h2; omega

theorem c_sin_tiny {K : Type} [LinearOrderedField K] [FloorRing K] :
    c_sin (5e-7 : K) = some ⟨1, 0⟩ := by
  rw [c_sin_eq, tiny_len]
  simp [rotAfter, rotPure, tiny_step.2, NUL_OP, ADD_OP, SUB_OP]

/-! ## The model of `frexp` -/

theorem frexp_zero {K : Type} [LinearOrderedField K] [FloorRing K] :
    frexp (0 : K) = (0, 0) := by
  simp [frexp]

theorem frexp_spec {K : Type} [LinearOrderedField K] [FloorRing K] (value : K)
    (hv : value ≠ 0) :
    1 / 2 ≤ |(frexp value).1| ∧ |(frexp value).1| < 1 ∧
      value = (frexp value).1 * (2 : K) ^ (frexp value).2 := by
  have habs : 0 < |value| := abs_pos.mpr hv
  have h2 : (2 : K) ≠ 0 := two_ne_zero
  have hlo : (2 : K) ^ Int.log 2 |value| ≤ |value| := by
    have := Int.zpow_log_le_self (b := 2) (by norm_num) habs
    simpa using this
  have hhi : |value| < (2 : K) ^ (Int.log 2 |value| + 1) := by
    have := Int.lt_zpow_succ_log_self (b := 2) (by norm_num) |value|
    simpa using this
  have hpos : (0 : K) < (2 : K) ^ (Int.log 2 |value| + 1) := zpow_pos (by norm_num) _
  have hsucc : (2 : K) ^ (Int.log 2 |value| + 1) = (2 : K) ^ Int.log 2 |value| * 2 := by
    rw [zpow_add_one₀ h2]
  simp only [frexp, hv, if_false]
  refine ⟨?_, ?_, ?_⟩
  · rw [abs_div, abs_of_pos hpos, le_div_iff₀ hpos, hsucc]
    linarith
  · rw [abs_div, abs_of_pos hpos, div_lt_one hpos]
    exact hhi
  · rw [div_mul_cancel₀ _ (ne_of_gt hpos)]

/-! ## The tables, entry by entry -/

theorem thetas_strict_anti {K : Type} [LinearOrderedField K] (i : Nat) (hi : i + 1 < 20) :
    (thetas (i + 1) : K) < thetas i := by
  have hi2 : i < 19 := by omega
  interval_cases i <;>
    simp only [thetas, thetasTable, List.getD_cons_zero, List.getD_cons_succ] <;> norm_num

theorem cosine_sq_close {K : Type} [LinearOrderedField K] (i : Nat) (hi : i < 20) :
    |(cosine i : K) ^ 2 * (1 + 1 / 4 ^ i) - 1| < 1e-15 := by
  interval_cases i <;>
    simp only [cosine, cosineTable, List.getD_cons_zero, List.getD_cons_succ, abs_lt] <;>
    constructor <;> norm_num

theorem four_pow_eq {K : Type} [LinearOrderedField K] (i : Nat) :
    (4 : K) ^ i = (2 ^ i) ^ 2 := by
  rw [← pow_mul, mul_comm, pow_mul]
  norm_num

theorem cos_arctan_pow (i : Nat) :
    Real.cos (Real.arctan (1 / 2 ^ i)) = 1 / Real.sqrt (1 + 1 / 4 ^ i) := by
  rw [Real.cos_arctan, four_pow_eq, one_div_pow]

theorem cosine_close_cos_arctan (i : Nat) (hi : i < 20) :
    |(cosine i : ℝ) - Real.cos (Real.arctan (1 / 2 ^ i))| < 1e-15 := by
  have hq := cosine_sq_close (K := ℝ) i hi
  have hc : (0 : ℝ) < cosine i := cosine_pos i hi
  have hpos : (0 : ℝ) < 1 + 1 / 4 ^ i := by positivity
  have hs1 : (1 : ℝ) ≤ Real.sqrt (1 + 1 / 4 ^ i) := by
    rw [Real.one_le_sqrt]
    have : (0 : ℝ) ≤ 1 / 4 ^ i := by positivity
    linarith
  have hs0 : (0 : ℝ) < Real.sqrt (1 + 1 / 4 ^ i) := lt_of_lt_of_le one_pos hs1
  have hr0 : (0 : ℝ) ≤ cosine i * Real.sqrt (1 + 1 / 4 ^ i) := le_of_lt (mul_pos hc hs0)
  have hr2 : (cosine i * Real.sqrt (1 + 1 / 4 ^ i)) ^ 2 = (cosine i : ℝ) ^ 2 * (1 + 1 / 4 ^ i) := by
    rw [mul_pow, Real.sq_sqrt (le_of_lt hpos)]
  have hr := abs_sub_one_le_of_sq _ hr0
  rw [hr2] at hr
  rw [cos_arctan_pow]
  have e : (cosine i : ℝ) - 1 / Real.sqrt (1 + 1 / 4 ^ i) =
      (cosine i * Real.sqrt (1 + 1 / 4 ^ i) - 1) / Real.sqrt (1 + 1 / 4 ^ i) := by
    field_simp
  rw [e, abs_div, abs_of_pos hs0]
  calc |cosine i * Real.sqrt (1 + 1 / 4 ^ i) - 1| / Real.sqrt (1 + 1 / 4 ^ i)
      ≤ |cosine i * Real.sqrt (1 + 1 / 4 ^ i) - 1| / 1 :=
        div_le_div_of_nonneg_left (abs_nonneg _) one_pos hs1
    _ = |cosine i * Real.sqrt (1 + 1 / 4 ^ i) - 1| := div_one _
    _ ≤ |(cosine i : ℝ) ^ 2 * (1 + 1 / 4 ^ i) - 1| := hr
    _ < 1e-15 := hq

theorem cosine_close_cos_thetas (i : Nat) (hi : i < 20) :
    |(cosine i : ℝ) - Real.cos (thetas i)| < 2e-15 := by
  have h1 := cosine_close_cos_arctan i hi
  have h2 := lt_of_le_of_lt (abs_cos_sub_cos_le (Real.arctan (1 / 2 ^ i)) (thetas i))
    (by rw [abs_sub_comm]; exact thetas_close_arctan i hi)
  have e : (cosine i : ℝ) - Real.cos (thetas i) =
      ((cosine i : ℝ) - Real.cos (Real.arctan (1 / 2 ^ i))) +
        (Real.cos (Real.arctan (1 / 2 ^ i)) - Real.cos (thetas i)) := by ring
  rw [e]
  refine lt_of_le_of_lt (abs_add _ _) ?_
  norm_num at h1 h2 ⊢
  linarith

/-! ## The greedy choice is a closest candidate -/

theorem approxStep_dist_eq_min {K : Type} [LinearOrderedField K] (alpha sum : K) (i : Nat) :
    |alpha - (approxStep alpha i sum).2| =
      min (min |alpha - (sum + thetas i)| |alpha - (sum - thetas i)|) |alpha - sum| := by
  unfold approxStep
  dsimp only
  split_ifs with h1 h2 h3
  · rw [min_eq_left (le_of_lt h1), min_eq_left (le_of_lt h2)]
  · rw [min_eq_left (le_of_lt h1), min_eq_right (not_lt.mp h2)]
  · rw [min_eq_right (not_lt.mp h1), min_eq_left (le_of_lt h3)]
  · rw [min_eq_right (not_lt.mp h1), min_eq_right (not_lt.mp h3)]

/-! ## Operation sequences and the rotation loop -/

theorem fin3_code (c : Fin 3) : c.val = ADD_OP ∨ c.val = SUB_OP ∨ c.val = NUL_OP := by
  fin_cases c <;> simp [ADD_OP, SUB_OP, NUL_OP]

theorem rotStep_nul {K : Type} [LinearOrderedField K] [FloorRing K]
    (operations : Nat → Option Nat) (i : Nat) (s : RotState K)
    (hop : operations i = some NUL_OP) : rotStep operations i s = some s := by
  unfold rotStep
  rw [hop]
  simp [ADD_OP, SUB_OP, NUL_OP]

theorem rotStep_non_nul {K : Type} [LinearOrderedField K] [FloorRing K]
    (operations : Nat → Option Nat) (i op : Nat) (s : RotState K)
    (hop : operations i = some op) (hcode : op = ADD_OP ∨ op = SUB_OP) :
    ∃ s1, rotStep operations i s = some s1 ∧
      s1.x_in ^ 2 + s1.y_in ^ 2 = (s.x_in ^ 2 + s.y_in ^ 2) * (1 + 1 / 4 ^ i) ∧
      s1.mul = s.mul * cosine i := by
  have h2 : ((2 : K) ^ i) ≠ 0 := pow_ne_zero _ two_ne_zero
  obtain ⟨s1, hs1, hv⟩ := rotStep_of_code operations i op s hop
    (by rcases hcode with h | h
        · exact Or.inl h
        · exact Or.inr (Or.inl h))
  refine ⟨s1, hs1, ?_⟩
  rw [rotPure_eq] at hv
  rcases hcode with h | h
  · subst h
    simp only [if_true, Prod.mk.injEq] at hv
    obtain ⟨hx, hy, hm⟩ := hv
    refine ⟨?_, hm⟩
    rw [hx, hy, four_pow_eq]
    field_simp
    ring
  · subst h
    have hne : ¬ (SUB_OP = ADD_OP) := by decide
    simp only [hne, if_true, if_false, Prod.mk.injEq] at hv
    obtain ⟨hx, hy, hm⟩ := hv
    refine ⟨?_, hm⟩
    rw [hx, hy, four_pow_eq]
    field_simp
    ring

theorem rotLoop_cellsOf {K : Type} [LinearOrderedField K] [FloorRing K]
    (op : Nat → Fin 3) (n : Nat) :
    ∃ s, rotLoop (cellsOf op) n 0 (⟨1, none, 0, none, 1⟩ : RotState K) = some s ∧
      (s.x_in, s.y_in, s.mul) = rotAfter (fun j => (op j).val) n := by
  obtain ⟨s, hs, hv⟩ := rotLoop_spec (K := K) (cellsOf op) (fun j => (op j).val) n 0
    ⟨1, none, 0, none, 1⟩ (fun j _ _ => ⟨rfl, fin3_code (op j)⟩) rfl
  rw [zero_add] at hv
  exact ⟨s, hs, hv⟩

theorem stretch_eq_prod {K : Type} [LinearOrderedField K] (f : Nat → K) (op : Nat → Fin 3) :
    ∀ k, stretch f (fun j => (op j).val) k =
      ∏ i in (Finset.range k).filter (fun i => (op i).val ≠ NUL_OP), f i := by
  intro k
  induction k with
  | zero => simp [stretch]
  | succ k ih =>
    rw [Finset.range_succ, Finset.filter_insert]
    simp only [stretch, ih]
    rcases fin3_code (op k) with h | h | h
    · have hne : (op k).val ≠ NUL_OP := by rw [h]; decide
      rw [if_pos (Or.inl h), if_pos hne, Finset.prod_insert (by simp), mul_comm]
    · have hne : (op k).val ≠ NUL_OP := by rw [h]; decide
      rw [if_pos (Or.inr h), if_pos hne, Finset.prod_insert (by simp), mul_comm]
    · have hno : ¬ ((op k).val = ADD_OP ∨ (op k).val = SUB_OP) := by rw [h]; decide
      have hnn : ¬ ((op k).val ≠ NUL_OP) := by rw [h]; decide
      rw [if_neg hno, if_neg hnn, mul_one]

theorem angleSum_eq_sum {K : Type} [LinearOrderedField K] (arc : Nat → K) (op : Nat → Nat) :
    ∀ k, angleSum arc op k =
      ∑ i in Finset.range k,
        (if op i = ADD_OP then arc i else if op i = SUB_OP then -arc i else 0) := by
  intro k
  induction k with
  | zero => simp [angleSum]
  | succ k ih => rw [Finset.sum_range_succ, ← ih]; rfl

theorem rotAfter_sq {K : Type} [LinearOrderedField K] [FloorRing K] (op : Nat → Nat) :
    ∀ k, (rotAfter op k : K × K × K).1 ^ 2 + (rotAfter op k : K × K × K).2.1 ^ 2 =
      stretch (fun i => 1 + 1 / 4 ^ i) op k := by
  intro k
  induction k with
  | zero => simp [rotAfter, stretch]
  | succ k ih =>
    have h2 : ((2 : K) ^ k) ≠ 0 := pow_ne_zero _ two_ne_zero
    simp only [rotAfter, rotPure_eq, stretch, ← ih]
    by_cases h1 : op k = ADD_OP
    · simp only [h1, if_true, true_or]
      rw [four_pow_eq]
      field_simp
      ring
    · by_cases h3 : op k = SUB_OP
      · have hne : ¬ (SUB_OP = ADD_OP) := by decide
        simp only [h3, hne, if_true, if_false, or_true]
        rw [four_pow_eq]
        field_simp
        ring
      · simp only [h1, h3, if_false, or_self, mul_one]

theorem sqrt_stretch (i : Nat) :
    Real.sqrt (1 + (1 / 2 ^ i : ℝ) ^ 2) = Real.sqrt (1 + 1 / 4 ^ i) := by
  rw [four_pow_eq, one_div_pow]

end Cordic




/-! ## The claims -/

namespace Cordic

/-- C1: in the real-arithmetic model, for every `alpha` in `[0, π/2]` with
`cos alpha ≥ 0.1`, `c_sin alpha` returns a value whose cosine field has relative error
below `1e-4` against `cos alpha`. -/
theorem c_sin_cosine_relative_error (alpha : ℝ) (h0 : 0 ≤ alpha) (h1 : alpha ≤ Real.pi / 2)
    (hc : 0.1 ≤ Real.cos alpha) :
    ∃ r, c_sin alpha = some r ∧ |r.cosine - Real.cos alpha| / Real.cos alpha < 1e-4 := by
  obtain ⟨r, hr, hcos, _⟩ := c_sin_abs_error alpha h0 h1
  refine ⟨r, hr, ?_⟩
  have hpos : 0 < Real.cos alpha := lt_of_lt_of_le (by norm_num) hc
  rw [div_lt_iff₀ hpos]
  norm_num at hcos hc ⊢
  linarith

/-- Witness for C1 at the input of the driver, `alpha = 70 * 3.1415926 / 180`. -/
theorem c_sin_cosine_relative_error_witness :
    ∃ r, c_sin (70 * 3.1415926 / 180 : ℝ) = some r ∧
      |r.cosine - Real.cos (70 * 3.1415926 / 180)| / Real.cos (70 * 3.1415926 / 180) < 1e-4 :=
  c_sin_cosine_relative_error (70 * 3.1415926 / 180) (by norm_num)
    (by have := Real.pi_gt_three; norm_num; linarith)
    (by
      have := Real.one_sub_sq_div_two_le_cos (x := (70 * 3.1415926 / 180 : ℝ))
      norm_num at this ⊢
      linarith)

/-- C2, as stated, fails: `alpha = 5e-7` lies in `(0, π/2]`, `c_sin` returns
`(cosine, sine) = (1, 0)` there, and the relative error of the sine field `0` against
`sin alpha` is not below `1e-4` (it is 1). -/
theorem c_sin_sine_relative_error_fails :
    (0 : ℝ) < 5e-7 ∧ (5e-7 : ℝ) ≤ Real.pi / 2 ∧
    c_sin (5e-7 : ℝ) = some ⟨1, 0⟩ ∧
    ¬ (|(0 : ℝ) - Real.sin 5e-7| / Real.sin 5e-7 < 1e-4) := by
  have hpi := Real.pi_gt_three
  have hs : 0 < Real.sin (5e-7 : ℝ) :=
    Real.sin_pos_of_pos_of_lt_pi (by norm_num) (by norm_num; linarith)
  refine ⟨by norm_num, by norm_num; linarith, c_sin_tiny, ?_⟩
  rw [zero_sub, abs_neg, abs_of_pos hs, div_self (ne_of_gt hs)]
  norm_num

/-- C2, amended: in the real-arithmetic model, for every `alpha` in `(0, π/2]`, the sine
field `c_sin alpha` returns has absolute error below `1.1e-6` against `sin alpha`, and
so relative error below `1e-4` whenever `sin alpha ≥ 0.011`. -/
theorem c_sin_sine_error (alpha : ℝ) (h0 : 0 < alpha) (h1 : alpha ≤ Real.pi / 2) :
    ∃ r, c_sin alpha = some r ∧ |r.sine - Real.sin alpha| < 1.1e-6 ∧
      (0.011 ≤ Real.sin alpha → |r.sine - Real.sin alpha| / Real.sin alpha < 1e-4) := by
  obtain ⟨r, hr, _, hsin⟩ := c_sin_abs_error alpha (le_of_lt h0) h1
  refine ⟨r, hr, hsin, ?_⟩
  intro hs
  have hpos : 0 < Real.sin alpha := lt_of_lt_of_le (by norm_num) hs
  rw [div_lt_iff₀ hpos]
  norm_num at hsin hs ⊢
  linarith

/-- Witness for the amended C2 at `alpha = 1`. -/
theorem c_sin_sine_error_witness :
    ∃ r, c_sin (1 : ℝ) = some r ∧ |r.sine - Real.sin 1| < 1.1e-6 ∧
      (0.011 ≤ Real.sin 1 → |r.sine - Real.sin 1| / Real.sin 1 < 1e-4) :=
  c_sin_sine_error 1 zero_lt_one (by have := Real.pi_gt_three; linarith)

/-- C4: for every `alpha`, the value `n` returned by `approximate` is the convergence
depth: `1 ≤ n ≤ 20`; if some `k` in `1..20` has `|alpha - sum_k| < ERR`, then `n` is
the least such `k`; and if there is none, `n = 20`. -/
theorem approximate_len_convergence_depth {K : Type} [LinearOrderedField K] (alpha : K)
    (operations : Nat → Option Nat) :
    1 ≤ (approximate alpha operations).len ∧ (approximate alpha operations).len ≤ 20 ∧
    ((∃ k, 1 ≤ k ∧ k ≤ 20 ∧ |alpha - sumAfter alpha k| < ERR) →
      IsLeast {k | 1 ≤ k ∧ k ≤ 20 ∧ |alpha - sumAfter alpha k| < ERR}
        (approximate alpha operations).len) ∧
    ((¬ ∃ k, 1 ≤ k ∧ k ≤ 20 ∧ |alpha - sumAfter alpha k| < ERR) →
      (approximate alpha operations).len = 20) := by
  obtain ⟨g1, g2, _, g4, g5, _⟩ := approximate_spec alpha operations
  refine ⟨g1, g2, ?_, ?_⟩
  · rintro ⟨k, hk1, hk2, hk⟩
    have hconv : |alpha - sumAfter alpha (approximate alpha operations).len| < ERR := by
      rcases lt_or_eq_of_le g2 with h | h
      · exact g5 h
      · rcases lt_or_eq_of_le hk2 with h2 | h2
        · exact absurd hk (g4 k (by omega) (by omega))
        · rw [h, ← h2]; exact hk
    refine ⟨⟨g1, g2, hconv⟩, ?_⟩
    rintro m ⟨hm1, _, hm⟩
    by_contra hlt
    exact g4 m (by omega) (by omega) hm
  · intro hno
    by_contra hne
    exact hno ⟨_, g1, g2, g5 (by omega)⟩

/-- C5: for every `alpha` and every index `i` below the returned length, the cell
`operations[i]` holds an operation that follows the tie-break policy on the candidate
distances `d_add`, `d_sub`, `d_nul` taken at the partial sum before step `i`: it is
`ADD_OP` exactly when `d_add ≤ d_sub` and `d_add < d_nul`, it is `SUB_OP` exactly when
`d_sub < d_add` and `d_sub < d_nul`, and it is `NUL_OP` exactly when neither holds. -/
theorem approximate_tie_break_policy {K : Type} [LinearOrderedField K] (alpha : K)
    (operations : Nat → Option Nat) (i : Nat)
    (hi : i < (approximate alpha operations).len) :
    ∃ op, (approximate alpha operations).operations i = some op ∧
      (op = ADD_OP ↔
        |alpha - (sumAfter alpha i + thetas i)| ≤ |alpha - (sumAfter alpha i - thetas i)| ∧
          |alpha - (sumAfter alpha i + thetas i)| < |alpha - sumAfter alpha i|) ∧
      (op = SUB_OP ↔
        |alpha - (sumAfter alpha i - thetas i)| < |alpha - (sumAfter alpha i + thetas i)| ∧
          |alpha - (sumAfter alpha i - thetas i)| < |alpha - sumAfter alpha i|) ∧
      (op = NUL_OP ↔
        ¬ (|alpha - (sumAfter alpha i + thetas i)| ≤ |alpha - (sumAfter alpha i - thetas i)| ∧
          |alpha - (sumAfter alpha i + thetas i)| < |alpha - sumAfter alpha i|) ∧
        ¬ (|alpha - (sumAfter alpha i - thetas i)| < |alpha - (sumAfter alpha i + thetas i)| ∧
          |alpha - (sumAfter alpha i - thetas i)| < |alpha - sumAfter alpha i|)) := by
  obtain ⟨_, g2, _, _, _, g6⟩ := approximate_spec alpha operations
  refine ⟨opAt alpha i, ?_, approxStep_policy alpha (sumAfter alpha i) i (by omega)⟩
  rw [g6 i]
  simp [hi]

/-- Witness for C5 at `alpha = 0`, index `0`, over the rationals. -/
theorem approximate_tie_break_policy_witness :
    ∃ op, (approximate (0 : ℚ) (fun _ => none)).operations 0 = some op ∧
      (op = ADD_OP ↔
        |(0 : ℚ) - (sumAfter 0 0 + thetas 0)| ≤ |(0 : ℚ) - (sumAfter 0 0 - thetas 0)| ∧
          |(0 : ℚ) - (sumAfter 0 0 + thetas 0)| < |(0 : ℚ) - sumAfter 0 0|) ∧
      (op = SUB_OP ↔
        |(0 : ℚ) - (sumAfter 0 0 - thetas 0)| < |(0 : ℚ) - (sumAfter 0 0 + thetas 0)| ∧
          |(0 : ℚ) - (sumAfter 0 0 - thetas 0)| < |(0 : ℚ) - sumAfter 0 0|) ∧
      (op = NUL_OP ↔
        ¬ (|(0 : ℚ) - (sumAfter 0 0 + thetas 0)| ≤ |(0 : ℚ) - (sumAfter 0 0 - thetas 0)| ∧
          |(0 : ℚ) - (sumAfter 0 0 + thetas 0)| < |(0 : ℚ) - sumAfter 0 0|) ∧
        ¬ (|(0 : ℚ) - (sumAfter 0 0 - thetas 0)| < |(0 : ℚ) - (sumAfter 0 0 + thetas 0)| ∧
          |(0 : ℚ) - (sumAfter 0 0 - thetas 0)| < |(0 : ℚ) - sumAfter 0 0|)) :=
  approximate_tie_break_policy (0 : ℚ) (fun _ => none) 0
    (by rw [len_zero]; exact Nat.zero_lt_one)

/-- C7: for every `alpha`, a step of the loop body of `approximate` never increases
the error, whatever the index and partial sum it starts from, so the errors
`|alpha - sum_k|` of the partial sums are non-increasing in `k`. -/
theorem approximate_error_non_increasing {K : Type} [LinearOrderedField K] (alpha : K) :
    (∀ (i : Nat) (sum : K), |alpha - (approxStep alpha i sum).2| ≤ |alpha - sum|) ∧
    (∀ k, |alpha - sumAfter alpha (k + 1)| ≤ |alpha - sumAfter alpha k|) ∧
    (∀ j k, j ≤ k → |alpha - sumAfter alpha k| ≤ |alpha - sumAfter alpha j|) :=
  ⟨fun i sum => approxStep_dist_le alpha sum i,
   fun k => approxStep_dist_le alpha (sumAfter alpha k) k,
   fun _ _ hjk => sumAfter_dist_antitone alpha hjk⟩

/-- C8: for `alpha = 0`, `approximate` returns length 1 with `operations[0] = NUL_OP`,
and `c_sin(0)` returns exactly `(cosine, sine) = (1, 0)`. -/
theorem c_sin_zero {K : Type} [LinearOrderedField K] [FloorRing K]
    (operations : Nat → Option Nat) :
    (approximate (0 : K) operations).len = 1 ∧
    (approximate (0 : K) operations).operations 0 = some NUL_OP ∧
    c_sin (0 : K) = some ⟨1, 0⟩ := by
  refine ⟨len_zero operations, ?_, ?_⟩
  · obtain ⟨_, _, _, _, _, g6⟩ := approximate_spec (0 : K) operations
    rw [g6 0, len_zero, step_zero.2]
    simp
  · rw [c_sin_eq, len_zero]
    simp [rotAfter, rotPure, step_zero.2, NUL_OP, ADD_OP, SUB_OP]

/-- C9: for `alpha = thetas[0] = 0.7853981633974483`, `approximate` records `ADD_OP` at
index 0 and returns length 1, and `c_sin` returns `cosine = sine = cosine[0] =
0.7071067811865476`, which is within `0.5e-8` of `0.70710678`. -/
theorem c_sin_theta0 {K : Type} [LinearOrderedField K] [FloorRing K]
    (operations : Nat → Option Nat) :
    (thetas 0 : K) = 0.7853981633974483 ∧
    (approximate (thetas 0 : K) operations).len = 1 ∧
    (approximate (thetas 0 : K) operations).operations 0 = some ADD_OP ∧
    c_sin (thetas 0 : K) = some ⟨cosine 0, cosine 0⟩ ∧
    (cosine 0 : K) = 0.7071067811865476 ∧
    |(cosine 0 : K) - 0.70710678| < 0.000000005 := by
  refine ⟨by simp [thetas, thetasTable], len_theta0 operations, ?_, ?_,
    by simp [cosine, cosineTable], ?_⟩
  · obtain ⟨_, _, _, _, _, g6⟩ := approximate_spec (thetas 0 : K) operations
    rw [g6 0, len_theta0, step_theta0.2]
    simp
  · rw [c_sin_eq, len_theta0]
    simp [rotAfter, rotPure, step_theta0.2, ADD_OP, right_shift_eq]
  · rw [abs_lt]
    constructor <;> norm_num [cosine, cosineTable]

/-- C3: in the real-arithmetic model, for every `alpha` with `0 ≤ alpha ≤ π/2`, the
partial sum `approximate` holds when it returns is the signed sum of `thetas[i]` over
the operations it recorded, and it is within `ERR = 1e-6` of `alpha`. -/
theorem approximate_reaches_tolerance (alpha : ℝ) (h0 : 0 ≤ alpha)
    (h1 : alpha ≤ Real.pi / 2) (operations : Nat → Option Nat) :
    (approximate alpha operations).sum =
      signedSum (approximate alpha operations).operations (approximate alpha operations).len ∧
    |alpha - (approximate alpha operations).sum| < ERR := by
  refine ⟨approximate_sum_eq_signedSum alpha operations, ?_⟩
  apply approximate_converges alpha h0 _ operations
  have := Real.pi_lt_d2
  norm_num at this ⊢
  linarith

/-- Witness for C3 at `alpha = 1`. -/
theorem approximate_reaches_tolerance_witness :
    (approximate (1 : ℝ) (fun _ => none)).sum =
      signedSum (approximate (1 : ℝ) (fun _ => none)).operations
        (approximate (1 : ℝ) (fun _ => none)).len ∧
    |(1 : ℝ) - (approximate (1 : ℝ) (fun _ => none)).sum| < ERR :=
  approximate_reaches_tolerance 1 zero_le_one
    (by have := Real.pi_gt_three; linarith) (fun _ => none)

/-- C6: in exact arithmetic over any ordered field, for every `alpha` (in particular
every `alpha` in `[0, π/2]`), `c_sin` returns a pair with
`|cosine^2 + sine^2 - 1| < 1e-12`. -/
theorem c_sin_unit_norm {K : Type} [LinearOrderedField K] [FloorRing K] (alpha : K) :
    ∃ r, c_sin alpha = some r ∧ |r.cosine ^ 2 + r.sine ^ 2 - 1| < 1e-12 := by
  obtain ⟨_, g2, _⟩ := approximate_spec alpha (fun _ => none)
  refine ⟨_, c_sin_eq alpha, ?_⟩
  have h := rotAfter_normSq_near_one (K := K) (opAt alpha)
    (approximate alpha (fun _ => none)).len g2
  have e : ∀ v : K × K × K, (v.1 * v.2.2) ^ 2 + (v.2.1 * v.2.2) ^ 2 = normSq v := by
    intro v; unfold normSq; ring
  rw [e]
  exact h

/-- C10: for `alpha = 1.5707963267948966` (the double nearest `π/2`), in exact
arithmetic over any ordered field, `c_sin` returns a pair within `1e-6` of `(0, 1)`:
`|cosine| < 1e-6` and `|sine - 1| < 1e-6`. -/
theorem c_sin_half_pi {K : Type} [LinearOrderedField K] [FloorRing K] :
    ∃ r, c_sin (1.5707963267948966 : K) = some r ∧
      |r.cosine| < 1e-6 ∧ |r.sine - 1| < 1e-6 := by
  refine ⟨_, c_sin_eq _, ?_, ?_⟩
  · rw [halfpi_len, halfpi_rot]
    simp only [abs_lt]
    norm_num
  · rw [halfpi_len, halfpi_rot]
    simp only [abs_lt]
    norm_num

/-- C11: in the exact model of `frexp`/`ldexp` (`frexp 0 = (0, 0)`; for `value ≠ 0`,
`value = significand * 2 ^ exponent` with `1/2 ≤ |significand| < 1`;
`ldexp m e = m * 2 ^ e`), `right_shift value shift = value * 2 ^ (-shift)` for every
value, zero and negative included, and every integer shift, in particular every
`shift ≥ 0`. -/
theorem right_shift_scales {K : Type} [LinearOrderedField K] [FloorRing K] (value : K) :
    frexp (0 : K) = (0, 0) ∧
    (value ≠ 0 → 1 / 2 ≤ |(frexp value).1| ∧ |(frexp value).1| < 1 ∧
      value = (frexp value).1 * (2 : K) ^ (frexp value).2) ∧
    (∀ (m : K) (e : Int), ldexp m e = m * (2 : K) ^ e) ∧
    (∀ shift : Int, right_shift value shift = value * (2 : K) ^ (-shift)) ∧
    (∀ i : Nat, right_shift value (i : Int) = value / (2 : K) ^ i) :=
  ⟨frexp_zero, frexp_spec value, fun _ _ => rfl, right_shift_eq value, right_shift_nat value⟩

/-- C12: for every value `v` and all non-negative integers `a` and `b`,
`right_shift (right_shift v a) b = right_shift v (a + b)` in the exact model of
`frexp`/`ldexp`. -/
theorem right_shift_compose {K : Type} [LinearOrderedField K] [FloorRing K] (v : K)
    (a b : Nat) :
    right_shift (right_shift v (a : Int)) (b : Int) = right_shift v ((a : Int) + (b : Int)) := by
  have h2 : (2 : K) ≠ 0 := two_ne_zero
  rw [right_shift_eq, right_shift_eq, right_shift_eq, mul_assoc, ← zpow_add₀ h2]
  congr 2
  ring

/-- C13: the `thetas` table has exactly 20 entries, every entry is positive, the
entries are strictly decreasing, and for every `i` in `0..19` the literal `thetas[i]`
is within `1e-15` of `arctan(2^-i)` (written `1 / 2 ^ i`). -/
theorem thetas_table_is_arctan :
    (thetasTable : List ℝ).length = 20 ∧
    (∀ i, i < 20 → (0 : ℝ) < thetas i) ∧
    (∀ i, i + 1 < 20 → (thetas (i + 1) : ℝ) < thetas i) ∧
    (∀ i, i < 20 → |(thetas i : ℝ) - Real.arctan (1 / 2 ^ i)| < 1e-15) :=
  ⟨rfl, fun i hi => thetas_pos i hi, fun i hi => thetas_strict_anti i hi,
    fun i hi => thetas_close_arctan i hi⟩

/-- C14: the `cosine` table has 20 entries like `thetas`, and for every `i` in `0..19`,
in exact arithmetic over any ordered field, `|cosine[i]^2 * (1 + 4^-i) - 1| < 1e-15`
(with `4^-i` written `1 / 4 ^ i`); over the reals, `cos(atan(2^-i)) = 1 / sqrt(1 + 4^-i)`,
`cosine[i]` is within `1e-15` of it, and within `2e-15` of `cos(thetas[i])`. -/
theorem cosine_table_is_cos_arctan {K : Type} [LinearOrderedField K] :
    (cosineTable : List K).length = 20 ∧
    (cosineTable : List K).length = (thetasTable : List K).length ∧
    (∀ i, i < 20 → |(cosine i : K) ^ 2 * (1 + 1 / 4 ^ i) - 1| < 1e-15) ∧
    (∀ i : Nat, Real.cos (Real.arctan (1 / 2 ^ i)) = 1 / Real.sqrt (1 + 1 / 4 ^ i)) ∧
    (∀ i, i < 20 → |(cosine i : ℝ) - Real.cos (Real.arctan (1 / 2 ^ i))| < 1e-15) ∧
    (∀ i, i < 20 → |(cosine i : ℝ) - Real.cos (thetas i)| < 2e-15) :=
  ⟨rfl, rfl, fun i hi => cosine_sq_close i hi, cos_arctan_pow,
    fun i hi => cosine_close_cos_arctan i hi, fun i hi => cosine_close_cos_thetas i hi⟩

/-- C15: for every `alpha`, a step of the loop body of `approximate`, at any index and
from any partial sum, keeps a partial sum whose distance to `alpha` is the minimum of
the three candidate distances; in particular this holds at every step of the scan. -/
theorem greedy_choice_is_closest {K : Type} [LinearOrderedField K] (alpha : K) :
    (∀ (i : Nat) (sum : K), |alpha - (approxStep alpha i sum).2| =
      min (min |alpha - (sum + thetas i)| |alpha - (sum - thetas i)|) |alpha - sum|) ∧
    (∀ k, |alpha - sumAfter alpha (k + 1)| =
      min (min |alpha - (sumAfter alpha k + thetas k)| |alpha - (sumAfter alpha k - thetas k)|)
        |alpha - sumAfter alpha k|) :=
  ⟨fun i sum => approxStep_dist_eq_min alpha sum i,
   fun k => approxStep_dist_eq_min alpha (sumAfter alpha k) k⟩

/-- C16: in exact arithmetic over any ordered field, for every operation sequence `op`
of length `n ≤ 20`: an iteration of the loop of `c_sin` at an index `i` holding `ADD_OP`
or `SUB_OP` multiplies `x_in^2 + y_in^2` by exactly `1 + 4^-i` (which is
`(1 / cos(atan(2^-i)))^2`) and `mul` by `cosine[i]`; an iteration at an index holding
`NUL_OP` leaves the whole state unchanged; and after the loop `x_in^2 + y_in^2` is the
product of `1 + 4^-i` and `mul` the product of `cosine[i]` over the non-`NUL_OP`
indices below `n`. -/
theorem rotation_loop_scaling {K : Type} [LinearOrderedField K] [FloorRing K]
    (op : Nat → Fin 3) (n : Nat) (_hn : n ≤ 20) :
    (∀ i, i < n → ∀ s : RotState K, (op i).val ≠ NUL_OP →
      ∃ s1, rotStep (cellsOf op) i s = some s1 ∧
        s1.x_in ^ 2 + s1.y_in ^ 2 = (s.x_in ^ 2 + s.y_in ^ 2) * (1 + 1 / 4 ^ i) ∧
        s1.mul = s.mul * cosine i) ∧
    (∀ i, i < n → ∀ s : RotState K, (op i).val = NUL_OP →
      rotStep (cellsOf op) i s = some s) ∧
    (∀ i : Nat, (1 + 1 / 4 ^ i : ℝ) = (1 / Real.cos (Real.arctan (1 / 2 ^ i))) ^ 2) ∧
    (∃ s, rotLoop (cellsOf op) n 0 (⟨1, none, 0, none, 1⟩ : RotState K) = some s ∧
      s.x_in ^ 2 + s.y_in ^ 2 =
        ∏ i in (Finset.range n).filter (fun i => (op i).val ≠ NUL_OP), (1 + 1 / 4 ^ i) ∧
      s.mul = ∏ i in (Finset.range n).filter (fun i => (op i).val ≠ NUL_OP), cosine i) := by
  refine ⟨?_, ?_, ?_, ?_⟩
  · intro i _ s hne
    apply rotStep_non_nul (cellsOf op) i (op i).val s rfl
    rcases fin3_code (op i) with h | h | h
    · exact Or.inl h
    · exact Or.inr h
    · exact absurd h hne
  · intro i _ s h
    apply rotStep_nul
    show some (op i).val = some NUL_OP
    rw [h]
  · intro i
    have hpos : (0 : ℝ) ≤ 1 + 1 / 4 ^ i := by positivity
    rw [cos_arctan_pow, one_div_one_div, Real.sq_sqrt hpos]
  · obtain ⟨s, hs, hv⟩ := rotLoop_cellsOf (K := K) op n
    refine ⟨s, hs, ?_, ?_⟩
    · have h := rotAfter_sq (K := K) (fun j => (op j).val) n
      rw [← hv, stretch_eq_prod] at h
      exact h
    · have h := rotAfter_mul (K := K) (fun j => (op j).val) n
      rw [← hv, stretch_eq_prod] at h
      exact h

/-- Witness for C16: the sequence `ADD, SUBTRACT, SKIP, SKIP, ...` at length 2, over the
rationals. -/
theorem rotation_loop_scaling_witness :
    (∀ i, i < 2 → ∀ s : RotState ℚ,
      ((fun j => if j = 0 then 1 else if j = 1 then 2 else 0 : Nat → Fin 3) i).val ≠ NUL_OP →
      ∃ s1, rotStep (cellsOf (fun j => if j = 0 then 1 else if j = 1 then 2 else 0)) i s
          = some s1 ∧
        s1.x_in ^ 2 + s1.y_in ^ 2 = (s.x_in ^ 2 + s.y_in ^ 2) * (1 + 1 / 4 ^ i) ∧
        s1.mul = s.mul * cosine i) ∧
    (∀ i, i < 2 → ∀ s : RotState ℚ,
      ((fun j => if j = 0 then 1 else if j = 1 then 2 else 0 : Nat → Fin 3) i).val = NUL_OP →
      rotStep (cellsOf (fun j => if j = 0 then 1 else if j = 1 then 2 else 0)) i s = some s) ∧
    (∀ i : Nat, (1 + 1 / 4 ^ i : ℝ) = (1 / Real.cos (Real.arctan (1 / 2 ^ i))) ^ 2) ∧
    (∃ s, rotLoop (cellsOf (fun j => if j = 0 then 1 else if j = 1 then 2 else 0)) 2 0
        (⟨1, none, 0, none, 1⟩ : RotState ℚ) = some s ∧
      s.x_in ^ 2 + s.y_in ^ 2 =
        ∏ i in (Finset.range 2).filter
          (fun i => ((fun j => if j = 0 then 1 else if j = 1 then 2 else 0 : Nat → Fin 3) i).val
            ≠ NUL_OP), (1 + 1 / 4 ^ i) ∧
      s.mul = ∏ i in (Finset.range 2).filter
          (fun i => ((fun j => if j = 0 then 1 else if j = 1 then 2 else 0 : Nat → Fin 3) i).val
            ≠ NUL_OP), cosine i) :=
  rotation_loop_scaling (fun j => if j = 0 then 1 else if j = 1 then 2 else 0) 2 (by decide)

/-- C17: in the real-arithmetic model, for every operation sequence `op` of length
`n ≤ 20`, the loop of `c_sin` ends with `x_in = K * cos S` and `y_in = K * sin S`, where
`S` is the sum over `i < n` of `+arctan(2^-i)` for `ADD_OP`, `-arctan(2^-i)` for `SUB_OP`
and `0` for `NUL_OP`, and `K` is the product of `sqrt(1 + 4^-i)` over the non-`NUL_OP`
indices below `n`. -/
theorem rotation_loop_is_rotation (op : Nat → Fin 3) (n : Nat) (_hn : n ≤ 20) :
    ∃ s, rotLoop (cellsOf op) n 0 (⟨1, none, 0, none, 1⟩ : RotState ℝ) = some s ∧
      s.x_in =
        (∏ i in (Finset.range n).filter (fun i => (op i).val ≠ NUL_OP),
            Real.sqrt (1 + 1 / 4 ^ i)) *
          Real.cos (∑ i in Finset.range n,
            (if (op i).val = ADD_OP then Real.arctan (1 / 2 ^ i)
             else if (op i).val = SUB_OP then -Real.arctan (1 / 2 ^ i) else 0)) ∧
      s.y_in =
        (∏ i in (Finset.range n).filter (fun i => (op i).val ≠ NUL_OP),
            Real.sqrt (1 + 1 / 4 ^ i)) *
          Real.sin (∑ i in Finset.range n,
            (if (op i).val = ADD_OP then Real.arctan (1 / 2 ^ i)
             else if (op i).val = SUB_OP then -Real.arctan (1 / 2 ^ i) else 0)) := by
  obtain ⟨s, hs, hv⟩ := rotLoop_cellsOf (K := ℝ) op n
  obtain ⟨px, py⟩ := rotAfter_polar (fun j => (op j).val) n
  rw [← hv] at px py
  simp only [sqrt_stretch] at px py
  rw [stretch_eq_prod, angleSum_eq_sum] at px py
  exact ⟨s, hs, px, py⟩

/-- Witness for C17: the sequence `ADD, SUBTRACT, SKIP, SKIP, ...` at length 2. -/
theorem rotation_loop_is_rotation_witness :
    ∃ s, rotLoop (cellsOf (fun j => if j = 0 then 1 else if j = 1 then 2 else 0)) 2 0
        (⟨1, none, 0, none, 1⟩ : RotState ℝ) = some s ∧
      s.x_in =
        (∏ i in (Finset.range 2).filter
            (fun i => ((fun j => if j = 0 then 1 else if j = 1 then 2 else 0 : Nat → Fin 3) i).val
              ≠ NUL_OP), Real.sqrt (1 + 1 / 4 ^ i)) *
          Real.cos (∑ i in Finset.range 2,
            (if ((fun j => if j = 0 then 1 else if j = 1 then 2 else 0 : Nat → Fin 3) i).val
                = ADD_OP then Real.arctan (1 / 2 ^ i)
             else if ((fun j => if j = 0 then 1 else if j = 1 then 2 else 0 : Nat → Fin 3) i).val
                = SUB_OP then -Real.arctan (1 / 2 ^ i) else 0)) ∧
      s.y_in =
        (∏ i in (Finset.range 2).filter
            (fun i => ((fun j => if j = 0 then 1 else if j = 1 then 2 else 0 : Nat → Fin 3) i).val
              ≠ NUL_OP), Real.sqrt (1 + 1 / 4 ^ i)) *
          Real.sin (∑ i in Finset.range 2,
            (if ((fun j => if j = 0 then 1 else if j = 1 then 2 else 0 : Nat → Fin 3) i).val
                = ADD_OP then Real.arctan (1 / 2 ^ i)
             else if ((fun j => if j = 0 then 1 else if j = 1 then 2 else 0 : Nat → Fin 3) i).val
                = SUB_OP then -Real.arctan (1 / 2 ^ i) else 0)) :=
  rotation_loop_is_rotation (fun j => if j = 0 then 1 else if j = 1 then 2 else 0) 2
    (by decide)

/-- C18: for every `alpha`, starting from an `operations` array with no cell written,
`approximate` returns a length of at most 20 and leaves every cell below it written with one of
`NUL_OP`, `ADD_OP`, `SUB_OP`; every iteration of the loop of `c_sin` at an index below
that length, from any state (also one whose `x_out`/`y_out` are unassigned), reads a
written cell and only assigned variables; and so the loop and `c_sin` return. -/
theorem c_sin_reads_only_written {K : Type} [LinearOrderedField K] [FloorRing K] (alpha : K) :
    (approximate alpha (fun _ => none)).len ≤ 20 ∧
    (∀ j, j < (approximate alpha (fun _ => none)).len →
      ∃ op, (approximate alpha (fun _ => none)).operations j = some op ∧
        (op = NUL_OP ∨ op = ADD_OP ∨ op = SUB_OP)) ∧
    (∀ j, j < (approximate alpha (fun _ => none)).len → ∀ s : RotState K,
      ∃ s1, rotStep (approximate alpha (fun _ => none)).operations j s = some s1) ∧
    (∃ s, rotLoop (approximate alpha (fun _ => none)).operations
      (approximate alpha (fun _ => none)).len 0 (⟨1, none, 0, none, 1⟩ : RotState K) = some s) ∧
    (∃ r, c_sin alpha = some r) := by
  obtain ⟨_, hlen, _, _, _, hops⟩ := approximate_spec alpha (fun _ => none)
  have hcell : ∀ j, j < (approximate alpha (fun _ => none)).len →
      (approximate alpha (fun _ => none)).operations j = some (opAt alpha j) := by
    intro j hj
    rw [hops j]
    simp [hj]
  refine ⟨hlen, ?_, ?_, ?_, ⟨_, c_sin_eq alpha⟩⟩
  · intro j hj
    refine ⟨opAt alpha j, hcell j hj, ?_⟩
    rcases opAt_mem alpha j with h | h | h
    · exact Or.inr (Or.inl h)
    · exact Or.inr (Or.inr h)
    · exact Or.inl h
  · intro j hj s
    obtain ⟨s1, hs1, _⟩ := rotStep_of_code _ j (opAt alpha j) s (hcell j hj) (opAt_mem alpha j)
    exact ⟨s1, hs1⟩
  · obtain ⟨s1, hs1, _⟩ := rotLoop_spec (approximate alpha (fun _ => none)).operations
      (opAt alpha) (approximate alpha (fun _ => none)).len 0 (⟨1, none, 0, none, 1⟩ : RotState K)
      (fun j _ hj => ⟨hcell j (by omega), opAt_mem alpha j⟩) rfl
    exact ⟨s1, hs1⟩

end Cordic
